import Mathlib

/-!
# PosKernel (pos-kernel-rs) — verification of the transaction kernel

Shallow embedding of the canonical ("legal") transaction kernel from
`src/pos-kernel-rs/src/lib.rs`, together with the enhanced line model from
`src/pos-kernel-rs/src/enhanced_line.rs`, the transaction-level void and
adjustment operations from `src/pos-kernel-rs/src/transaction_void_methods.rs`
and the store-level void operations from
`src/pos-kernel-rs/src/store_void_methods.rs`.

Modelling conventions:
* Rust `i32` / `i64` quantities and amounts are modelled as `Int`, `u32` / `u64`
  counters and handles as `Nat`.  None of the verified claims concerns the
  two's-complement overflow boundary (the spec declares overflow a fatal
  error), so machine wrap-around is not modelled.
* Wall-clock time is modelled by an explicit `now : Nat` (seconds since epoch)
  parameter threaded through the operations; `SystemTime::elapsed` is
  `now - last_activity` with truncated subtraction (Rust's `elapsed` errors
  when the clock went backwards and `is_expired` then answers `false`, which
  truncated `Nat` subtraction reproduces: `0 > timeout` is false).
* The write-ahead log is modelled as the list of durably written records plus
  the sequence counter.  Whether a physical append-and-flush succeeds is an
  input/output event, modelled by an explicit `walOk : Bool` argument to each
  operation that logs.  The textual serialization of a record (comma escaping,
  checksum) is not modelled; a record keeps its typed payload.
* `HashMap<u64, T>` is modelled as an association list with
  lookup / update / erase helpers.
* Rust kernel functions return `Err(String)` / `Err(Box<dyn Error>)` and the
  FFI layer routes them by substring tests on the message.  Errors are embedded
  as the inductive `KErr`; `errMsg` gives each error its exact source message
  and the FFI routing is performed by a real substring test on that message,
  mirroring the `e.to_string().contains(...)` chains.  The message of a WAL
  I/O failure is an operating-system error text; it is modelled as a fixed
  string that contains none of the routing substrings, matching the I/O error
  texts the `std::io` layer produces.
* `str::to_uppercase` is modelled by ASCII uppercasing (identity on characters
  without an ASCII uppercase form), which is exact on ASCII strings.
  Theorems that assert the stored uppercased currency code therefore
  quantify only over ASCII codes; whether `Currency::new` succeeds is decided
  by the byte-length check before any uppercasing, so the success criterion is
  unaffected.  All concrete inputs exercised through the model are ASCII.
-/

deriving instance DecidableEq for Except

/-- Result codes of the C ABI (`ResultCode` in lib.rs). -/
inductive ResultCode where
  | ok
  | notFound
  | invalidState
  | validationFailed
  | insufficientBuffer
  | timedOut
  | recoveryFailed
  | internalError
deriving DecidableEq, Repr

/-- Kernel-level errors.  Each constructor corresponds to one error value the
Rust kernel can produce; `errMsg` recovers the exact message string. -/
inductive KErr where
  | txNotFound
  | notInBuilding
  | expired
  | alreadyFinalized
  | lineNotFoundOrNotSale
  | lineNotFound
  | alreadyVoided
  | useVoidForRemoval
  | walFailed
deriving DecidableEq, Repr

/-- The exact Rust error message carried by each kernel error
(`"Transaction not found"` etc. in lib.rs and the void method files).
`walFailed` stands for an I/O error from the WAL layer; its text is
system-generated and contains none of the substrings the FFI routing tests
for, which the fixed string used here reproduces. -/
def errMsg : KErr → String
  | .txNotFound => "Transaction not found"
  | .notInBuilding => "Transaction not in building state"
  | .expired => "Transaction expired"
  | .alreadyFinalized => "Transaction already finalized"
  | .lineNotFoundOrNotSale => "Line item not found or not a sale item"
  | .lineNotFound => "Line item not found"
  | .alreadyVoided => "Line item already voided"
  | .useVoidForRemoval => "Use void_line_item for removing items completely"
  | .walFailed => "No space left on device (os error 28)"

/-- `needle` occurs as a contiguous substring of `hay`
(model of Rust `str::contains`). -/
def strContains (hay needle : String) : Bool :=
  (List.range (hay.data.length + 1)).any
    (fun i => needle.data.isPrefixOf (hay.data.drop i))

/-- ASCII model of Rust `str::to_uppercase`: exact on ASCII strings,
identity on characters without an ASCII uppercase form (see header note). -/
def rustUppercase (s : String) : String :=
  String.mk (s.data.map Char.toUpper)

/-- UTF-8 byte length of a string (Rust `str::len`). -/
def utf8Len (s : String) : Nat :=
  (s.data.map Char.utf8Size).sum

/-- `Currency` (lib.rs): 3-byte code, decimal places, standard flag. -/
structure Currency where
  code : String
  decimal_places : Nat
  is_standard : Bool
deriving DecidableEq, Repr

/-- `Currency::usd` (lib.rs). -/
def Currency.usd : Currency := ⟨"USD", 2, true⟩
/-- `Currency::eur` (lib.rs). -/
def Currency.eur : Currency := ⟨"EUR", 2, true⟩
/-- `Currency::jpy` (lib.rs). -/
def Currency.jpy : Currency := ⟨"JPY", 0, true⟩
/-- `Currency::gbp` (lib.rs). -/
def Currency.gbp : Currency := ⟨"GBP", 2, true⟩
/-- `Currency::cad` (lib.rs). -/
def Currency.cad : Currency := ⟨"CAD", 2, true⟩
/-- `Currency::aud` (lib.rs). -/
def Currency.aud : Currency := ⟨"AUD", 2, true⟩

/-- `Currency::new` (lib.rs).  Rust's `code.len()` is the UTF-8 byte length,
modelled by `utf8Len`; `is_empty` is emptiness of the character list. -/
def Currency.new (code : String) : Except String Currency :=
  if code.data.isEmpty then
    .error "Currency code cannot be empty"
  else if utf8Len code ≠ 3 then
    .error "Currency code must be exactly 3 characters"
  else
    let code_upper := rustUppercase code
    if code_upper = "USD" then .ok Currency.usd
    else if code_upper = "EUR" then .ok Currency.eur
    else if code_upper = "JPY" then .ok Currency.jpy
    else if code_upper = "GBP" then .ok Currency.gbp
    else if code_upper = "CAD" then .ok Currency.cad
    else if code_upper = "AUD" then .ok Currency.aud
    else .ok ⟨code_upper, 2, false⟩

/-- `EntryType` (enhanced_line.rs). -/
inductive EntryType where
  | sale
  | void
  | adjustment
deriving DecidableEq, Repr

/-- Enhanced `Line` (enhanced_line.rs).  The `SystemTime` timestamp is the
`now` value at creation. -/
structure Line where
  sku : String
  qty : Int
  unit_minor : Int
  line_number : Nat
  entry_type : EntryType
  void_reason : Option String
  references_line : Option Nat
  timestamp : Nat
  operator_id : Option String
deriving DecidableEq, Repr

/-- `Line::new_sale` (enhanced_line.rs). -/
def Line.new_sale (sku : String) (qty : Int) (unit_minor : Int)
    (line_number : Nat) (operator_id : Option String) (now : Nat) : Line :=
  { sku := sku, qty := qty, unit_minor := unit_minor,
    line_number := line_number, entry_type := .sale,
    void_reason := none, references_line := none,
    timestamp := now, operator_id := operator_id }

/-- `Line::new_void` (enhanced_line.rs): negated quantity, same unit price,
references the original's line number. -/
def Line.new_void (original : Line) (line_number : Nat) (reason : String)
    (operator_id : Option String) (now : Nat) : Line :=
  { sku := original.sku, qty := -original.qty,
    unit_minor := original.unit_minor, line_number := line_number,
    entry_type := .void, void_reason := some reason,
    references_line := some original.line_number,
    timestamp := now, operator_id := operator_id }

/-- `Line::total_minor` (lib.rs): `unit_minor * qty`. -/
def Line.total_minor (l : Line) : Int :=
  l.unit_minor * l.qty

/-- `LegalTxState` (lib.rs). -/
inductive LegalTxState where
  | building
  | committing
  | committed
  | aborting
  | aborted
  | timedOut
deriving DecidableEq, Repr

/-- `LegalTransaction` (lib.rs), with the enhanced line list.  Timestamps are
`Nat` seconds; see the header note. -/
structure LegalTransaction where
  id : Nat
  store : String
  currency : Currency
  lines : List Line
  tendered_minor : Int
  state : LegalTxState
  created_at : Nat
  committed_at : Option Nat
  last_activity : Nat
  recovery_point : Nat
  wal_begin_sequence : Option Nat
  wal_commit_sequence : Option Nat
deriving DecidableEq, Repr

/-- `LegalTransaction::new` (lib.rs). -/
def LegalTransaction.new (id : Nat) (store : String) (currency : Currency)
    (wal_sequence : Nat) (now : Nat) : LegalTransaction :=
  { id := id, store := store, currency := currency, lines := [],
    tendered_minor := 0, state := .building, created_at := now,
    committed_at := none, last_activity := now, recovery_point := 0,
    wal_begin_sequence := some wal_sequence, wal_commit_sequence := none }

/-- `LegalTransaction::total_minor` (lib.rs): sum of `Line::total_minor`
over all lines, regardless of entry kind. -/
def LegalTransaction.total_minor (tx : LegalTransaction) : Int :=
  (tx.lines.map Line.total_minor).sum

/-- `LegalTransaction::change_minor` (lib.rs):
`(tendered - total).max(0)`. -/
def LegalTransaction.change_minor (tx : LegalTransaction) : Int :=
  max (tx.tendered_minor - tx.total_minor) 0

/-- `LegalTransaction::line_count` (lib.rs). -/
def LegalTransaction.line_count (tx : LegalTransaction) : Nat :=
  tx.lines.length

/-- `LegalTransaction::is_expired` (lib.rs):
`last_activity.elapsed().as_secs() > timeout_seconds`, answering `false`
when the clock went backwards (truncated subtraction). -/
def LegalTransaction.is_expired (tx : LegalTransaction)
    (timeout_seconds : Nat) (now : Nat) : Bool :=
  now - tx.last_activity > timeout_seconds

/-- `LegalTransaction::next_line_number` (transaction_void_methods.rs). -/
def LegalTransaction.next_line_number (tx : LegalTransaction) : Nat :=
  tx.lines.length + 1

/-- `LegalTransaction::add_line` (transaction_void_methods.rs version, the
one that assigns proper line numbers). -/
def LegalTransaction.add_line (tx : LegalTransaction) (sku : String)
    (qty : Int) (unit_minor : Int) (now : Nat) : LegalTransaction :=
  { tx with
    lines := tx.lines ++ [Line.new_sale sku qty unit_minor
      tx.next_line_number none now],
    recovery_point := tx.recovery_point + 1 }

/-- `LegalTransaction::void_line_item` (transaction_void_methods.rs). -/
def LegalTransaction.void_line_item (tx : LegalTransaction)
    (line_number : Nat) (reason : String) (operator_id : Option String)
    (now : Nat) : Except KErr LegalTransaction :=
  match tx.lines.find? (fun l =>
      l.line_number == line_number && l.entry_type == EntryType.sale) with
  | none => .error .lineNotFoundOrNotSale
  | some original =>
    if tx.lines.any (fun l =>
        l.entry_type == EntryType.void && l.references_line == some line_number)
    then .error .alreadyVoided
    else
      .ok { tx with
        lines := tx.lines ++
          [Line.new_void original tx.next_line_number reason operator_id now],
        recovery_point := tx.recovery_point + 1 }

/-- `LegalTransaction::calculate_effective_quantity_for_line`
(transaction_void_methods.rs). -/
def LegalTransaction.calculate_effective_quantity_for_line
    (tx : LegalTransaction) (line_number : Nat) : Int :=
  ((tx.lines.filter (fun l =>
      l.line_number == line_number || l.references_line == some line_number)).map
    (fun l => l.qty)).sum

/-- `LegalTransaction::update_line_quantity` (transaction_void_methods.rs). -/
def LegalTransaction.update_line_quantity (tx : LegalTransaction)
    (line_number : Nat) (new_quantity : Int) (operator_id : Option String)
    (now : Nat) : Except KErr LegalTransaction :=
  if new_quantity ≤ 0 then .error .useVoidForRemoval
  else
    match tx.lines.find? (fun l =>
        l.line_number == line_number && l.entry_type == EntryType.sale) with
    | none => .error .lineNotFound
    | some original =>
      let effective_qty := tx.calculate_effective_quantity_for_line line_number
      let qty_diff := new_quantity - effective_qty
      if qty_diff ≠ 0 then
        .ok { tx with
          lines := tx.lines ++
            [{ sku := original.sku, qty := qty_diff,
               unit_minor := original.unit_minor,
               line_number := tx.next_line_number,
               entry_type := .adjustment,
               void_reason := some ("Quantity changed from " ++
                 toString effective_qty ++ " to " ++ toString new_quantity),
               references_line := some line_number,
               timestamp := now, operator_id := operator_id }],
          recovery_point := tx.recovery_point + 1 }
      else .ok tx

/-- WAL operation kinds (`WalOperationType` in lib.rs), keeping the typed
payloads of the call sites.  `transactionCommit` carries the four numbers of
the `final_state` string; `raw` mirrors the string-tagged records written by
`log_wal_entry` in store_void_methods.rs. -/
inductive WalOp where
  | transactionBegin (store : String) (currency : String)
  | lineAdd (sku : String) (qty : Int) (unit_minor : Int)
  | tenderAdd (amount_minor : Int)
  | transactionCommit (total : Int) (tendered : Int) (change : Int)
      (line_count : Nat)
  | transactionAbort (reason : String)
  | raw (tag : String) (data : String)
deriving DecidableEq, Repr

/-- A durably written WAL record (`WalEntry` in lib.rs, sans timestamp and
checksum — see the header note on serialization). -/
structure WalEntry where
  sequence_number : Nat
  transaction_handle : Nat
  op : WalOp
deriving DecidableEq, Repr

/-- The configuration fields of `SystemConfig` (lib.rs) the kernel
operations read. -/
structure SystemConfig where
  max_concurrent_transactions : Nat
  transaction_timeout_seconds : Nat
deriving DecidableEq, Repr

/-- `SystemConfig::default` (lib.rs): 1000 and 300. -/
def SystemConfig.default : SystemConfig := ⟨1000, 300⟩

/-- `LegalKernelStore` (lib.rs).  `wal_entries` / `wal_next_seq` model the
owned `WriteAheadLog` (written records and `sequence_counter`). -/
structure LegalKernelStore where
  next_tx_id : Nat
  active_transactions : List (Nat × LegalTransaction)
  system_config : SystemConfig
  transaction_timeouts : List (Nat × Nat)
  wal_entries : List WalEntry
  wal_next_seq : Nat
deriving DecidableEq, Repr

/-- `LegalKernelStore::new` (lib.rs): empty maps, counters at 1, fresh WAL
(`sequence_counter` starts at 1). -/
def LegalKernelStore.new : LegalKernelStore :=
  { next_tx_id := 1, active_transactions := [],
    system_config := SystemConfig.default, transaction_timeouts := [],
    wal_entries := [], wal_next_seq := 1 }

/-- `active_transactions.get(&handle)` on the association-list model. -/
def lookupTx (s : LegalKernelStore) (handle : Nat) : Option LegalTransaction :=
  (s.active_transactions.find? (fun p => p.1 == handle)).map Prod.snd

/-- In-place mutation through `get_mut(&handle)`: replace the entry at
`handle` with `tx`. -/
def updateTx (s : LegalKernelStore) (handle : Nat) (tx : LegalTransaction) :
    LegalKernelStore :=
  { s with active_transactions :=
      (s.active_transactions.map
        (fun p => if p.1 = handle then (handle, tx) else p)) }

/-- `WriteAheadLog::log_operation` (lib.rs): the sequence counter is
consumed (`fetch_add`) before the write is attempted; `walOk` is whether the
physical append-and-flush (`write_entry`) succeeds. -/
def walLogOperation (s : LegalKernelStore) (handle : Nat) (op : WalOp)
    (walOk : Bool) : Except KErr Nat × LegalKernelStore :=
  let seq := s.wal_next_seq
  let s1 := { s with wal_next_seq := seq + 1 }
  if walOk then
    (.ok seq, { s1 with wal_entries := s1.wal_entries ++ [⟨seq, handle, op⟩] })
  else
    (.error .walFailed, s1)

/-- Modelled from the spec: `LegalKernelStore::log_wal_entry`, called by
store_void_methods.rs, is not present in src/.  Per spec §4.5 a WAL append
assigns the next sequence number, writes and flushes the record; the record
keeps the tag and data string of the call site. -/
def logWalEntry (s : LegalKernelStore) (tag : String) (handle : Nat)
    (data : String) (walOk : Bool) : Except KErr Nat × LegalKernelStore :=
  walLogOperation s handle (.raw tag data) walOk

/-- `LegalKernelStore::begin_transaction_legal` (lib.rs): consume a
transaction id, log `TransactionBegin` first, and only on WAL success create
and register the transaction. -/
def beginTransactionLegal (s : LegalKernelStore) (store : String)
    (currency : Currency) (now : Nat) (walOk : Bool) :
    Except KErr Nat × LegalKernelStore :=
  let tx_id := s.next_tx_id
  let s1 := { s with next_tx_id := tx_id + 1 }
  match walLogOperation s1 tx_id (.transactionBegin store currency.code) walOk with
  | (.error e, s2) => (.error e, s2)
  | (.ok seq, s2) =>
    let transaction := LegalTransaction.new tx_id store currency seq now
    (.ok tx_id, { s2 with
      transaction_timeouts := s2.transaction_timeouts ++
        [(tx_id, now + s2.system_config.transaction_timeout_seconds)],
      active_transactions := s2.active_transactions ++ [(tx_id, transaction)] })

/-- `LegalKernelStore::add_line_legal` (lib.rs): state and expiry checks,
WAL log of `LineAdd`, and only on WAL success the in-memory mutation
(`add_line` plus `touch_activity`). -/
def addLineLegal (s : LegalKernelStore) (handle : Nat) (sku : String)
    (qty : Int) (unit_minor : Int) (now : Nat) (walOk : Bool) :
    Except KErr Unit × LegalKernelStore :=
  match lookupTx s handle with
  | none => (.error .txNotFound, s)
  | some tx =>
    match tx.state with
    | .building =>
      if tx.is_expired s.system_config.transaction_timeout_seconds now then
        (.error .expired, s)
      else
        match walLogOperation s handle (.lineAdd sku qty unit_minor) walOk with
        | (.error e, s1) => (.error e, s1)
        | (.ok _, s1) =>
          (.ok (), updateTx s1 handle
            { (tx.add_line sku qty unit_minor now) with last_activity := now })
    | _ => (.error .notInBuilding, s)

/-- `LegalKernelStore::commit_transaction_legal` (lib.rs): move to
Committing in memory, log `TransactionCommit`; on WAL success record
Committed, on WAL failure revert the state to Building. -/
def commitTransactionLegal (s : LegalKernelStore) (handle : Nat) (now : Nat)
    (walOk : Bool) : Except KErr Unit × LegalKernelStore :=
  match lookupTx s handle with
  | none => (.error .txNotFound, s)
  | some tx =>
    if tx.state ≠ .building then (.error .notInBuilding, s)
    else
      let tx1 := { tx with state := .committing }
      match walLogOperation s handle
          (.transactionCommit tx1.total_minor tx1.tendered_minor
            tx1.change_minor tx1.line_count) walOk with
      | (.ok commit_sequence, s1) =>
        (.ok (), updateTx s1 handle
          { tx1 with
            state := .committed, committed_at := some now,
            wal_commit_sequence := some commit_sequence })
      | (.error e, s1) =>
        (.error e, updateTx s1 handle { tx1 with state := .building })

/-- `LegalKernelStore::add_tender_legal` (lib.rs): state and expiry checks,
WAL log of `TenderAdd` (success flag `walOk`), then the tender mutation, then
auto-commit when `tendered >= total` (its commit record's success flag is
`commitWalOk`). -/
def addTenderLegal (s : LegalKernelStore) (handle : Nat) (amount_minor : Int)
    (now : Nat) (walOk : Bool) (commitWalOk : Bool) :
    Except KErr Unit × LegalKernelStore :=
  match lookupTx s handle with
  | none => (.error .txNotFound, s)
  | some tx =>
    match tx.state with
    | .building =>
      if tx.is_expired s.system_config.transaction_timeout_seconds now then
        (.error .expired, s)
      else
        match walLogOperation s handle (.tenderAdd amount_minor) walOk with
        | (.error e, s1) => (.error e, s1)
        | (.ok _, s1) =>
          let tx1 := { tx with
            tendered_minor := tx.tendered_minor + amount_minor,
            last_activity := now }
          let s2 := updateTx s1 handle tx1
          if tx1.tendered_minor ≥ tx1.total_minor then
            commitTransactionLegal s2 handle now commitWalOk
          else
            (.ok (), s2)
    | _ => (.error .notInBuilding, s)

/-- `LegalKernelStore::abort_transaction_legal` (lib.rs): refuse when
already Committed or Aborted, otherwise move to Aborting, log
`TransactionAbort`; on WAL success Aborted, on WAL failure revert to
Building. -/
def abortTransactionLegal (s : LegalKernelStore) (handle : Nat)
    (reason : String) (walOk : Bool) : Except KErr Unit × LegalKernelStore :=
  match lookupTx s handle with
  | none => (.error .txNotFound, s)
  | some tx =>
    if tx.state = .committed ∨ tx.state = .aborted then
      (.error .alreadyFinalized, s)
    else
      let tx1 := { tx with state := .aborting }
      match walLogOperation s handle (.transactionAbort reason) walOk with
      | (.ok _, s1) => (.ok (), updateTx s1 handle { tx1 with state := .aborted })
      | (.error e, s1) =>
        (.error e, updateTx s1 handle { tx1 with state := .building })

/-- `LegalKernelStore::void_line_item_legal` (store_void_methods.rs): the
in-memory void is applied first; the WAL record is written afterwards and a
WAL failure is only warned about, never reported to the caller. -/
def voidLineItemLegal (s : LegalKernelStore) (handle : Nat)
    (line_number : Nat) (reason : String) (operator_id : Option String)
    (now : Nat) (walOk : Bool) : Except KErr Unit × LegalKernelStore :=
  match lookupTx s handle with
  | none => (.error .txNotFound, s)
  | some tx =>
    match tx.state with
    | .building =>
      if tx.is_expired s.system_config.transaction_timeout_seconds now then
        (.error .expired, s)
      else
        match tx.void_line_item line_number reason operator_id now with
        | .error e => (.error e, s)
        | .ok tx1 =>
          let s1 := updateTx s handle { tx1 with last_activity := now }
          let s2 := (logWalEntry s1 "VOID_LINE" handle
            ("line:" ++ toString line_number ++ ", reason:" ++ reason) walOk).2
          (.ok (), s2)
    | _ => (.error .notInBuilding, s)

/-- `LegalKernelStore::update_line_quantity_legal` (store_void_methods.rs):
same shape as the void operation, WAL failure likewise ignored. -/
def updateLineQuantityLegal (s : LegalKernelStore) (handle : Nat)
    (line_number : Nat) (new_quantity : Int) (operator_id : Option String)
    (now : Nat) (walOk : Bool) : Except KErr Unit × LegalKernelStore :=
  match lookupTx s handle with
  | none => (.error .txNotFound, s)
  | some tx =>
    match tx.state with
    | .building =>
      if tx.is_expired s.system_config.transaction_timeout_seconds now then
        (.error .expired, s)
      else
        match tx.update_line_quantity line_number new_quantity operator_id now with
        | .error e => (.error e, s)
        | .ok tx1 =>
          let s1 := updateTx s handle { tx1 with last_activity := now }
          let s2 := (logWalEntry s1 "UPDATE_QTY" handle
            ("line:" ++ toString line_number ++ ", qty:" ++
              toString new_quantity) walOk).2
          (.ok (), s2)
    | _ => (.error .notInBuilding, s)

/-- The state discriminant `pk_get_totals_legal` writes to `out_state`
(lib.rs): Building 0 … TimedOut 5. -/
def stateCode : LegalTxState → Int
  | .building => 0
  | .committing => 1
  | .committed => 2
  | .aborting => 3
  | .aborted => 4
  | .timedOut => 5

/-- The error routing of `pk_add_line_legal` / `pk_add_cash_tender_legal`
(lib.rs): substring tests on the error message, in source order. -/
def routeMutationErr (e : KErr) : ResultCode :=
  let m := errMsg e
  if strContains m "expired" then .timedOut
  else if strContains m "not found" then .notFound
  else if strContains m "state" then .invalidState
  else .internalError

/-- The error routing of `pk_commit_transaction_legal` (lib.rs). -/
def routeCommitErr (e : KErr) : ResultCode :=
  let m := errMsg e
  if strContains m "not found" then .notFound
  else if strContains m "state" then .invalidState
  else .internalError

/-- The error routing of `pk_abort_transaction_legal` (lib.rs). -/
def routeAbortErr (e : KErr) : ResultCode :=
  let m := errMsg e
  if strContains m "not found" then .notFound
  else if strContains m "finalized" then .invalidState
  else .internalError

/-- `pk_begin_transaction_legal` (lib.rs): currency validation, the
concurrent-transaction cap, then the kernel operation.  The second component
of the result is the written `out_handle`. -/
def pk_begin_transaction_legal (s : LegalKernelStore) (store_name : String)
    (currency_str : String) (now : Nat) (walOk : Bool) :
    (ResultCode × Option Nat) × LegalKernelStore :=
  match Currency.new currency_str with
  | .error _ => ((.validationFailed, none), s)
  | .ok currency =>
    if s.active_transactions.length ≥
        s.system_config.max_concurrent_transactions then
      ((.validationFailed, none), s)
    else
      match beginTransactionLegal s store_name currency now walOk with
      | (.ok handle, s1) => ((.ok, some handle), s1)
      | (.error _, s1) => ((.internalError, none), s1)

/-- `pk_add_line_legal` (lib.rs): argument validation then the kernel
operation with its error routing. -/
def pk_add_line_legal (s : LegalKernelStore) (handle : Nat) (sku : String)
    (qty : Int) (unit_minor : Int) (now : Nat) (walOk : Bool) :
    ResultCode × LegalKernelStore :=
  if handle = 0 ∨ qty ≤ 0 ∨ unit_minor < 0 then (.validationFailed, s)
  else if sku.data.isEmpty then (.validationFailed, s)
  else
    match addLineLegal s handle sku qty unit_minor now walOk with
    | (.ok _, s1) => (.ok, s1)
    | (.error e, s1) => (routeMutationErr e, s1)

/-- `pk_add_cash_tender_legal` (lib.rs). -/
def pk_add_cash_tender_legal (s : LegalKernelStore) (handle : Nat)
    (amount_minor : Int) (now : Nat) (walOk : Bool) (commitWalOk : Bool) :
    ResultCode × LegalKernelStore :=
  if handle = 0 ∨ amount_minor ≤ 0 then (.validationFailed, s)
  else
    match addTenderLegal s handle amount_minor now walOk commitWalOk with
    | (.ok _, s1) => (.ok, s1)
    | (.error e, s1) => (routeMutationErr e, s1)

/-- `pk_commit_transaction_legal` (lib.rs). -/
def pk_commit_transaction_legal (s : LegalKernelStore) (handle : Nat)
    (now : Nat) (walOk : Bool) : ResultCode × LegalKernelStore :=
  if handle = 0 then (.validationFailed, s)
  else
    match commitTransactionLegal s handle now walOk with
    | (.ok _, s1) => (.ok, s1)
    | (.error e, s1) => (routeCommitErr e, s1)

/-- `pk_abort_transaction_legal` (lib.rs): an empty reason becomes
"User abort". -/
def pk_abort_transaction_legal (s : LegalKernelStore) (handle : Nat)
    (reason : String) (walOk : Bool) : ResultCode × LegalKernelStore :=
  if handle = 0 then (.validationFailed, s)
  else
    let r := if reason.data.isEmpty then "User abort" else reason
    match abortTransactionLegal s handle r walOk with
    | (.ok _, s1) => (.ok, s1)
    | (.error e, s1) => (routeAbortErr e, s1)

/-- `pk_get_totals_legal` (lib.rs): the four out-parameters
(total, tendered, change, state discriminant) on success. -/
def pk_get_totals_legal (s : LegalKernelStore) (handle : Nat) :
    ResultCode × Option (Int × Int × Int × Int) :=
  if handle = 0 then (.validationFailed, none)
  else
    match lookupTx s handle with
    | none => (.notFound, none)
    | some tx =>
      (.ok, some (tx.total_minor, tx.tendered_minor, tx.change_minor,
        stateCode tx.state))

/-- `pk_close_transaction_legal` (lib.rs): remove the transaction and its
timeout entry from the registry; no WAL interaction. -/
def pk_close_transaction_legal (s : LegalKernelStore) (handle : Nat) :
    ResultCode × LegalKernelStore :=
  if handle = 0 then (.validationFailed, s)
  else
    match lookupTx s handle with
    | some _ =>
      (.ok, { s with
        active_transactions :=
          (s.active_transactions.filter (fun p => p.1 != handle)),
        transaction_timeouts :=
          (s.transaction_timeouts.filter (fun p => p.1 != handle)) })
    | none => (.notFound, s)

/-- `pk_get_currency_decimal_places` (lib.rs). -/
def pk_get_currency_decimal_places (s : LegalKernelStore) (handle : Nat) :
    ResultCode × Option Nat :=
  if handle = 0 then (.validationFailed, none)
  else
    match lookupTx s handle with
    | none => (.notFound, none)
    | some tx => (.ok, some tx.currency.decimal_places)

/-- `pk_get_line_count` (lib.rs). -/
def pk_get_line_count (s : LegalKernelStore) (handle : Nat) :
    ResultCode × Option Nat :=
  if handle = 0 then (.validationFailed, none)
  else
    match lookupTx s handle with
    | none => (.notFound, none)
    | some tx => (.ok, some tx.line_count)

/-- `pk_get_store_name` (lib.rs), sans the caller-buffer mechanics. -/
def pk_get_store_name (s : LegalKernelStore) (handle : Nat) :
    ResultCode × Option String :=
  if handle = 0 then (.validationFailed, none)
  else
    match lookupTx s handle with
    | none => (.notFound, none)
    | some tx => (.ok, some tx.store)

/-- `pk_get_currency` (lib.rs), sans the caller-buffer mechanics. -/
def pk_get_currency (s : LegalKernelStore) (handle : Nat) :
    ResultCode × Option String :=
  if handle = 0 then (.validationFailed, none)
  else
    match lookupTx s handle with
    | none => (.notFound, none)
    | some tx => (.ok, some tx.currency.code)

/-- Modelled from the spec: the FFI entry point for `void_line` is not in
src/ (only the kernel-level `void_line_item_legal` is).  Per spec §6/§7 it
validates the handle and maps the kernel errors to NotFound (absent
transaction or line), InvalidState (already voided / wrong state) and
TimedOut (expired); anything else is InternalError. -/
def pk_void_line_legal (s : LegalKernelStore) (handle : Nat)
    (line_number : Nat) (reason : String) (now : Nat) (walOk : Bool) :
    ResultCode × LegalKernelStore :=
  if handle = 0 then (.validationFailed, s)
  else
    match voidLineItemLegal s handle line_number reason none now walOk with
    | (.ok _, s1) => (.ok, s1)
    | (.error e, s1) =>
      (match e with
       | .txNotFound => .notFound
       | .lineNotFoundOrNotSale => .notFound
       | .alreadyVoided => .invalidState
       | .notInBuilding => .invalidState
       | .expired => .timedOut
       | _ => .internalError, s1)

/-- The states reachable from a freshly constructed kernel store by any
sequence of kernel operations (any arguments, any clock values, any WAL
outcomes), with handle release through the FFI close entry point. -/
inductive Reachable : LegalKernelStore → Prop where
  | init : Reachable LegalKernelStore.new
  | step_begin (s : LegalKernelStore) (store : String) (currency : Currency)
      (now : Nat) (walOk : Bool) : Reachable s →
      Reachable (beginTransactionLegal s store currency now walOk).2
  | step_add_line (s : LegalKernelStore) (handle : Nat) (sku : String)
      (qty unit_minor : Int) (now : Nat) (walOk : Bool) : Reachable s →
      Reachable (addLineLegal s handle sku qty unit_minor now walOk).2
  | step_add_tender (s : LegalKernelStore) (handle : Nat)
      (amount_minor : Int) (now : Nat) (walOk commitWalOk : Bool) :
      Reachable s →
      Reachable (addTenderLegal s handle amount_minor now walOk commitWalOk).2
  | step_commit (s : LegalKernelStore) (handle : Nat) (now : Nat)
      (walOk : Bool) : Reachable s →
      Reachable (commitTransactionLegal s handle now walOk).2
  | step_abort (s : LegalKernelStore) (handle : Nat) (reason : String)
      (walOk : Bool) : Reachable s →
      Reachable (abortTransactionLegal s handle reason walOk).2
  | step_void (s : LegalKernelStore) (handle line_number : Nat)
      (reason : String) (operator_id : Option String) (now : Nat)
      (walOk : Bool) : Reachable s →
      Reachable
        (voidLineItemLegal s handle line_number reason operator_id now walOk).2
  | step_update_qty (s : LegalKernelStore) (handle line_number : Nat)
      (new_quantity : Int) (operator_id : Option String) (now : Nat)
      (walOk : Bool) : Reachable s →
      Reachable (updateLineQuantityLegal s handle line_number new_quantity
        operator_id now walOk).2
  | step_close (s : LegalKernelStore) (handle : Nat) : Reachable s →
      Reachable (pk_close_transaction_legal s handle).2

/-! ## Association-list infrastructure -/

theorem lookupTx_mem {s : LegalKernelStore} {h : Nat} {tx : LegalTransaction}
    (hl : lookupTx s h = some tx) : (h, tx) ∈ s.active_transactions := by
  unfold lookupTx at hl
  cases hf : s.active_transactions.find? (fun p => p.1 == h) with
  | none => rw [hf] at hl; simp at hl
  | some p =>
    rw [hf] at hl
    have hm := List.mem_of_find?_eq_some hf
    obtain ⟨p1, p2⟩ := p
    simp at hl
    subst hl
    have hp := List.find?_some hf
    simp at hp
    subst hp
    exact hm

theorem find?_map_update (l : List (Nat × LegalTransaction)) (h : Nat)
    (tx' : LegalTransaction)
    (hs : (l.find? (fun p => p.1 == h)).isSome) :
    ((l.map (fun p => if p.1 = h then (h, tx') else p)).find?
      (fun p => p.1 == h)) = some (h, tx') := by
  induction l with
  | nil => simp at hs
  | cons a l ih =>
    simp only [List.map_cons]
    by_cases ha : a.1 = h
    · rw [if_pos ha]
      rw [List.find?_cons_of_pos _ (by simp)]
    · rw [if_neg ha]
      rw [List.find?_cons_of_neg _ (by simp [ha])]
      rw [List.find?_cons_of_neg _ (by simp [ha])] at hs
      exact ih hs

theorem lookupTx_updateTx {s : LegalKernelStore} {h : Nat}
    {tx : LegalTransaction} (tx' : LegalTransaction)
    (hl : lookupTx s h = some tx) :
    lookupTx (updateTx s h tx') h = some tx' := by
  unfold lookupTx at *
  unfold updateTx
  rw [find?_map_update]
  · rfl
  · cases hf : s.active_transactions.find? (fun p => p.1 == h) with
    | none => rw [hf] at hl; simp at hl
    | some p => rfl

theorem mem_updateTx {p : Nat × LegalTransaction} {s : LegalKernelStore}
    {h : Nat} {tx' : LegalTransaction}
    (hp : p ∈ (updateTx s h tx').active_transactions) :
    p ∈ s.active_transactions ∨ p.2 = tx' := by
  unfold updateTx at hp
  simp only [] at hp
  obtain ⟨q, hq, hpq⟩ := List.mem_map.mp hp
  by_cases h1 : q.1 = h
  · right; rw [if_pos h1] at hpq; rw [← hpq]
  · left; rw [if_neg h1] at hpq; rw [← hpq]; exact hq

theorem find?_filter_ne (l : List (Nat × LegalTransaction)) (h : Nat) :
    (l.filter (fun p => p.1 != h)).find? (fun p => p.1 == h) = none := by
  induction l with
  | nil => rfl
  | cons a l ih =>
    by_cases ha : a.1 = h
    · simp [List.filter_cons, ha, ih]
    · simp [List.filter_cons, ha, List.find?_cons_of_neg, ih]

theorem eq_of_mem_of_nodup_keys {l : List (Nat × LegalTransaction)}
    (hnd : (l.map Prod.fst).Nodup) {p q : Nat × LegalTransaction}
    (hp : p ∈ l) (hq : q ∈ l) (hk : p.1 = q.1) : p = q := by
  induction l with
  | nil => simp at hp
  | cons a t ih =>
    simp only [List.map_cons, List.nodup_cons] at hnd
    rcases List.mem_cons.mp hp with rfl | hp1
    · rcases List.mem_cons.mp hq with rfl | hq1
      · rfl
      · exfalso
        apply hnd.1
        rw [hk]
        exact List.mem_map_of_mem _ hq1
    · rcases List.mem_cons.mp hq with rfl | hq1
      · exfalso
        apply hnd.1
        rw [← hk]
        exact List.mem_map_of_mem _ hp1
      · exact ih hnd.2 hp1 hq1

theorem mem_updateTx' {p : Nat × LegalTransaction} {s : LegalKernelStore}
    {h : Nat} {tx' : LegalTransaction}
    (hp : p ∈ (updateTx s h tx').active_transactions) :
    ∃ q ∈ s.active_transactions, p = q ∨ (q.1 = h ∧ p = (h, tx')) := by
  unfold updateTx at hp
  simp only [] at hp
  obtain ⟨q, hq, hpq⟩ := List.mem_map.mp hp
  by_cases h1 : q.1 = h
  · exact ⟨q, hq, Or.inr ⟨h1, by rw [← hpq, if_pos h1]⟩⟩
  · exact ⟨q, hq, Or.inl (by rw [← hpq, if_neg h1])⟩

theorem map_fst_updateTx (s : LegalKernelStore) (h : Nat)
    (tx' : LegalTransaction) :
    ((updateTx s h tx').active_transactions.map Prod.fst) =
      s.active_transactions.map Prod.fst := by
  unfold updateTx
  simp only []
  rw [List.map_map]
  apply List.map_congr_left
  intro p hp
  by_cases hph : p.1 = h
  · simp [hph]
  · simp [hph]

theorem map_update_eq_self {l : List (Nat × LegalTransaction)} {h : Nat}
    {tx : LegalTransaction}
    (hc : ∀ p ∈ l, (if p.1 = h then (h, tx) else p) = p) :
    (l.map fun p => if p.1 = h then (h, tx) else p) = l := by
  induction l with
  | nil => rfl
  | cons a t ih =>
    simp only [List.map_cons]
    rw [hc a (List.mem_cons_self a t),
      ih (fun p hp => hc p (List.mem_cons_of_mem a hp))]

theorem updateTx_eq_self_active {s : LegalKernelStore} {h : Nat}
    {tx : LegalTransaction}
    (hnd : (s.active_transactions.map Prod.fst).Nodup)
    (hl : lookupTx s h = some tx) :
    (updateTx s h tx).active_transactions = s.active_transactions := by
  have hmem := lookupTx_mem hl
  unfold updateTx
  simp only []
  apply map_update_eq_self
  intro p hp
  by_cases hph : p.1 = h
  · rw [if_pos hph]
    exact (eq_of_mem_of_nodup_keys hnd hp hmem (by rw [hph])).symm
  · rw [if_neg hph]

/-! ## Line-numbering and void invariants -/

/-- The lines carry numbers `k, k+1, …` in list order. -/
def Numbered : Nat → List Line → Prop
  | _, [] => True
  | k, l :: ls => l.line_number = k ∧ Numbered (k + 1) ls

theorem numbered_le {k : Nat} {ls : List Line} (hn : Numbered k ls) :
    ∀ a ∈ ls, k ≤ a.line_number := by
  induction ls generalizing k with
  | nil => simp
  | cons b ls ih =>
    obtain ⟨hb, hrest⟩ := hn
    intro a ha
    rcases List.mem_cons.mp ha with rfl | ha
    · omega
    · have := ih hrest a ha; omega

theorem numbered_inj {k : Nat} {ls : List Line} (hn : Numbered k ls) :
    ∀ a ∈ ls, ∀ b ∈ ls, a.line_number = b.line_number → a = b := by
  induction ls generalizing k with
  | nil => simp
  | cons c ls ih =>
    obtain ⟨hc, hrest⟩ := hn
    intro a ha b hb heq
    rcases List.mem_cons.mp ha with ha1 | ha1
    · rcases List.mem_cons.mp hb with hb1 | hb1
      · rw [ha1, hb1]
      · exfalso
        have hbn := numbered_le hrest b hb1
        rw [ha1] at heq
        omega
    · rcases List.mem_cons.mp hb with hb1 | hb1
      · exfalso
        have han := numbered_le hrest a ha1
        rw [hb1] at heq
        omega
      · exact ih hrest a ha1 b hb1 heq

theorem numbered_append_one {k : Nat} {ls : List Line} {x : Line}
    (hn : Numbered k ls) (hx : x.line_number = k + ls.length) :
    Numbered k (ls ++ [x]) := by
  induction ls generalizing k with
  | nil => exact ⟨by simpa using hx, trivial⟩
  | cons c ls ih =>
    obtain ⟨hc, hrest⟩ := hn
    refine ⟨hc, ih hrest ?_⟩
    simp at hx ⊢
    omega

/-- The Void entries of `ls` whose `references_line` is `n`
(the scan `void_line_item` performs for its double-void check). -/
def voidsReferencing (ls : List Line) (n : Nat) : List Line :=
  ls.filter (fun l =>
    l.entry_type == EntryType.void && l.references_line == some n)

/-- Audit-trail invariant of a line list: every Void entry reverses an
existing Sale entry exactly (referenced number, negated quantity, same unit
price), and no Sale entry is referenced by more than one Void entry. -/
def VoidInv (ls : List Line) : Prop :=
  (∀ v ∈ ls, v.entry_type = .void →
    ∃ t ∈ ls, t.entry_type = .sale ∧
      v.references_line = some t.line_number ∧
      v.qty = -t.qty ∧ v.unit_minor = t.unit_minor) ∧
  (∀ n, (voidsReferencing ls n).length ≤ 1)

theorem voidInv_append_nonvoid {ls : List Line} {x : Line} (hv : VoidInv ls)
    (hx : x.entry_type ≠ .void) : VoidInv (ls ++ [x]) := by
  constructor
  · intro v hvmem hvt
    rcases List.mem_append.mp hvmem with hm | hm
    · obtain ⟨t, ht, h1, h2, h3, h4⟩ := hv.1 v hm hvt
      exact ⟨t, List.mem_append_left _ ht, h1, h2, h3, h4⟩
    · simp at hm; subst hm; exact absurd hvt hx
  · intro n
    unfold voidsReferencing at *
    rw [List.filter_append]
    have hone : ([x].filter (fun l =>
        l.entry_type == EntryType.void && l.references_line == some n)) = [] := by
      simp [List.filter_cons, hx]
    rw [hone, List.append_nil]
    exact hv.2 n

theorem voidInv_append_void {ls : List Line} {t x : Line} (hv : VoidInv ls)
    (ht : t ∈ ls) (hts : t.entry_type = .sale)
    (hxt : x.entry_type = .void)
    (hxr : x.references_line = some t.line_number)
    (hxq : x.qty = -t.qty) (hxu : x.unit_minor = t.unit_minor)
    (hno : ∀ l ∈ ls,
      ¬(l.entry_type = .void ∧ l.references_line = some t.line_number)) :
    VoidInv (ls ++ [x]) := by
  constructor
  · intro v hvmem hvt
    rcases List.mem_append.mp hvmem with hm | hm
    · obtain ⟨u, hu, h1, h2, h3, h4⟩ := hv.1 v hm hvt
      exact ⟨u, List.mem_append_left _ hu, h1, h2, h3, h4⟩
    · simp at hm; subst hm
      exact ⟨t, List.mem_append_left _ ht, hts, hxr, hxq, hxu⟩
  · intro n
    unfold voidsReferencing at *
    rw [List.filter_append]
    by_cases hn : n = t.line_number
    · have hnil : (ls.filter (fun l =>
          l.entry_type == EntryType.void && l.references_line == some n)) = [] := by
        rw [List.filter_eq_nil_iff]
        intro l hl
        have hnot := hno l hl
        simp only [Bool.and_eq_true, beq_iff_eq, not_and]
        intro h1 h2
        exact hnot ⟨h1, by rw [h2, hn]⟩
      rw [hnil]
      simp only [List.nil_append]
      have hle : ([x].filter (fun l =>
          l.entry_type == EntryType.void && l.references_line == some n)).length ≤
          ([x] : List Line).length := List.length_filter_le _ _
      simpa using hle
    · have hfx : (x.references_line == some n) = false := by
        rw [hxr]
        simp
        exact fun h1 => hn h1.symm
      have hone : ([x].filter (fun l =>
          l.entry_type == EntryType.void && l.references_line == some n)) = [] := by
        simp [List.filter_cons, hfx]
      rw [hone, List.append_nil]
      exact hv.2 n

/-- Per-transaction audit invariant: dense 1-based line numbering plus the
void reversal invariant. -/
def TxInv (tx : LegalTransaction) : Prop :=
  Numbered 1 tx.lines ∧ VoidInv tx.lines

/-- Every registered transaction satisfies `TxInv`. -/
def StoreInv (s : LegalKernelStore) : Prop :=
  ∀ p ∈ s.active_transactions, TxInv p.2

theorem txInv_of_new (id : Nat) (store : String) (currency : Currency)
    (seq now : Nat) : TxInv (LegalTransaction.new id store currency seq now) := by
  refine ⟨trivial, ?_, ?_⟩
  · intro v hv; simp [LegalTransaction.new] at hv
  · intro n; simp [LegalTransaction.new, voidsReferencing]

theorem txInv_add_line {tx : LegalTransaction} (h : TxInv tx)
    (sku : String) (qty unit_minor : Int) (now : Nat) :
    TxInv (tx.add_line sku qty unit_minor now) := by
  unfold LegalTransaction.add_line
  constructor
  · apply numbered_append_one h.1
    simp [Line.new_sale, LegalTransaction.next_line_number]
    omega
  · apply voidInv_append_nonvoid h.2
    simp [Line.new_sale]

theorem txInv_void {tx tx' : LegalTransaction} {n : Nat} {reason : String}
    {op : Option String} {now : Nat} (h : TxInv tx)
    (hv : tx.void_line_item n reason op now = .ok tx') : TxInv tx' := by
  unfold LegalTransaction.void_line_item at hv
  cases hf : tx.lines.find? (fun l =>
      l.line_number == n && l.entry_type == EntryType.sale) with
  | none => rw [hf] at hv; exact absurd hv (by simp)
  | some orig =>
    rw [hf] at hv
    have horig_mem := List.mem_of_find?_eq_some hf
    have hpred := List.find?_some hf
    simp only [Bool.and_eq_true, beq_iff_eq] at hpred
    cases hany : tx.lines.any (fun l =>
        l.entry_type == EntryType.void && l.references_line == some n) with
    | true => rw [hany] at hv; exact absurd hv (by simp)
    | false =>
      rw [hany] at hv
      simp only [Bool.false_eq_true, if_false, Except.ok.injEq] at hv
      subst hv
      have hno : ∀ l ∈ tx.lines,
          ¬(l.entry_type = .void ∧ l.references_line = some n) := by
        intro l hl
        have := List.any_eq_false.mp hany l hl
        simp only [Bool.and_eq_true, beq_iff_eq] at this
        exact fun hc => this ⟨hc.1, hc.2⟩
      constructor
      · apply numbered_append_one h.1
        simp [Line.new_void, LegalTransaction.next_line_number]
        omega
      · apply voidInv_append_void h.2 horig_mem hpred.2
        · simp [Line.new_void]
        · simp [Line.new_void]
        · simp [Line.new_void]
        · simp [Line.new_void]
        · rw [hpred.1]; exact hno

theorem txInv_update_qty {tx tx' : LegalTransaction} {n : Nat} {q : Int}
    {op : Option String} {now : Nat} (h : TxInv tx)
    (hv : tx.update_line_quantity n q op now = .ok tx') : TxInv tx' := by
  unfold LegalTransaction.update_line_quantity at hv
  split at hv
  · exact absurd hv (by simp)
  · split at hv
    · exact absurd hv (by simp)
    · simp only [ne_eq] at hv
      split at hv
      · simp only [Except.ok.injEq] at hv
        subst hv
        constructor
        · apply numbered_append_one h.1
          simp [LegalTransaction.next_line_number]
          omega
        · exact voidInv_append_nonvoid h.2 (by simp)
      · simp only [Except.ok.injEq] at hv
        subst hv
        exact h

/-! ## Preservation of the store invariant by every operation -/

theorem storeInv_of_eq_active {s s' : LegalKernelStore} (hs : StoreInv s)
    (h : s'.active_transactions = s.active_transactions) : StoreInv s' := by
  intro p hp; rw [h] at hp; exact hs p hp

theorem storeInv_updateTx {s : LegalKernelStore} {h : Nat}
    {tx' : LegalTransaction} (hs : StoreInv s) (ht : TxInv tx') :
    StoreInv (updateTx s h tx') := by
  intro p hp
  rcases mem_updateTx hp with hmem | heq
  · exact hs p hmem
  · rw [heq]; exact ht

theorem walLog_active (s : LegalKernelStore) (h : Nat) (op : WalOp)
    (ok : Bool) :
    ((walLogOperation s h op ok).2).active_transactions =
      s.active_transactions := by
  unfold walLogOperation
  cases ok <;> simp

theorem walLog_false (s : LegalKernelStore) (h : Nat) (op : WalOp) :
    walLogOperation s h op false =
      (.error .walFailed, { s with wal_next_seq := s.wal_next_seq + 1 }) :=
  rfl

theorem walLog_true (s : LegalKernelStore) (h : Nat) (op : WalOp) :
    walLogOperation s h op true =
      (.ok s.wal_next_seq, { s with
        wal_entries := s.wal_entries ++ [⟨s.wal_next_seq, h, op⟩],
        wal_next_seq := s.wal_next_seq + 1 }) :=
  rfl

theorem walLog_next (s : LegalKernelStore) (h : Nat) (op : WalOp)
    (ok : Bool) :
    ((walLogOperation s h op ok).2).next_tx_id = s.next_tx_id := by
  cases ok
  · rw [walLog_false]
  · rw [walLog_true]

theorem walLog_eq_next {s s1 : LegalKernelStore} {h : Nat} {op : WalOp}
    {ok : Bool} {r : Except KErr Nat}
    (hw : walLogOperation s h op ok = (r, s1)) :
    s1.next_tx_id = s.next_tx_id := by
  have h1 := congrArg (fun x => x.2.next_tx_id) hw
  simp only [] at h1
  rw [walLog_next] at h1
  exact h1.symm

theorem tx_eta_building {tx : LegalTransaction}
    (h : tx.state = LegalTxState.building) :
    { tx with state := LegalTxState.building } = tx := by
  cases tx
  simp_all

theorem lookupTx_eq_of_active {s s' : LegalKernelStore}
    (ha : s'.active_transactions = s.active_transactions) (h : Nat) :
    lookupTx s' h = lookupTx s h := by
  unfold lookupTx
  rw [ha]

theorem walLog_eq_active {s s1 : LegalKernelStore} {h : Nat} {op : WalOp}
    {ok : Bool} {r : Except KErr Nat}
    (hw : walLogOperation s h op ok = (r, s1)) :
    s1.active_transactions = s.active_transactions := by
  have h1 := congrArg (fun x => x.2.active_transactions) hw
  simp only [] at h1
  rw [walLog_active] at h1
  exact h1.symm

theorem storeInv_walLog_eq {s s1 : LegalKernelStore} {h : Nat} {op : WalOp}
    {walOk : Bool} {r : Except KErr Nat} (hs : StoreInv s)
    (hw : walLogOperation s h op walOk = (r, s1)) : StoreInv s1 := by
  have hact := congrArg (fun x => x.2.active_transactions) hw
  simp only [walLog_active] at hact
  exact storeInv_of_eq_active hs hact.symm

theorem storeInv_begin {s : LegalKernelStore} (hs : StoreInv s)
    (store : String) (currency : Currency) (now : Nat) (walOk : Bool) :
    StoreInv (beginTransactionLegal s store currency now walOk).2 := by
  simp only [beginTransactionLegal]
  split
  · next e s2 hw =>
    refine storeInv_walLog_eq ?_ hw
    exact hs
  · next seq s2 hw =>
    have hs2 : StoreInv s2 := by
      refine storeInv_walLog_eq ?_ hw
      exact hs
    intro p hp
    simp only [] at hp
    rcases List.mem_append.mp hp with hm | hm
    · exact hs2 p hm
    · simp only [List.mem_singleton] at hm
      rw [hm]
      exact txInv_of_new _ _ _ _ _

theorem storeInv_add_line {s : LegalKernelStore} (hs : StoreInv s)
    (h : Nat) (sku : String) (qty unit_minor : Int) (now : Nat)
    (walOk : Bool) :
    StoreInv (addLineLegal s h sku qty unit_minor now walOk).2 := by
  unfold addLineLegal
  split
  · exact hs
  · next tx hl =>
    have htx : TxInv tx := hs _ (lookupTx_mem hl)
    split
    · split
      · exact hs
      · split
        · next e s1 hw => exact storeInv_walLog_eq hs hw
        · next a s1 hw =>
          exact storeInv_updateTx (storeInv_walLog_eq hs hw)
            (txInv_add_line htx sku qty unit_minor now)
    · exact hs

theorem storeInv_commit {s : LegalKernelStore} (hs : StoreInv s)
    (h : Nat) (now : Nat) (walOk : Bool) :
    StoreInv (commitTransactionLegal s h now walOk).2 := by
  simp only [commitTransactionLegal]
  split
  · exact hs
  · next tx hl =>
    have htx : TxInv tx := hs _ (lookupTx_mem hl)
    split
    · exact hs
    · split
      · next seq s1 hw =>
        have hs1 : StoreInv s1 := by
          refine storeInv_walLog_eq ?_ hw
          exact hs
        exact storeInv_updateTx hs1 htx
      · next e s1 hw =>
        have hs1 : StoreInv s1 := by
          refine storeInv_walLog_eq ?_ hw
          exact hs
        exact storeInv_updateTx hs1 htx

theorem storeInv_add_tender {s : LegalKernelStore} (hs : StoreInv s)
    (h : Nat) (amount_minor : Int) (now : Nat) (walOk commitWalOk : Bool) :
    StoreInv (addTenderLegal s h amount_minor now walOk commitWalOk).2 := by
  simp only [addTenderLegal]
  split
  · exact hs
  · next tx hl =>
    have htx : TxInv tx := hs _ (lookupTx_mem hl)
    split
    · split
      · exact hs
      · split
        · next e s1 hw =>
          refine storeInv_walLog_eq ?_ hw
          exact hs
        · next a s1 hw =>
          have hs1 : StoreInv s1 := by
            refine storeInv_walLog_eq ?_ hw
            exact hs
          have hs2 : StoreInv (updateTx s1 h
              { tx with
                tendered_minor := tx.tendered_minor + amount_minor,
                last_activity := now }) := storeInv_updateTx hs1 htx
          split
          · exact storeInv_commit hs2 h now commitWalOk
          · exact hs2
    · exact hs

theorem storeInv_abort {s : LegalKernelStore} (hs : StoreInv s)
    (h : Nat) (reason : String) (walOk : Bool) :
    StoreInv (abortTransactionLegal s h reason walOk).2 := by
  unfold abortTransactionLegal
  split
  · exact hs
  · next tx hl =>
    have htx : TxInv tx := hs _ (lookupTx_mem hl)
    split
    · exact hs
    · split
      · next a s1 hw =>
        refine storeInv_updateTx ?_ htx
        refine storeInv_walLog_eq ?_ hw
        exact hs
      · next e s1 hw =>
        refine storeInv_updateTx ?_ htx
        refine storeInv_walLog_eq ?_ hw
        exact hs

theorem storeInv_void {s : LegalKernelStore} (hs : StoreInv s)
    (h line_number : Nat) (reason : String) (operator_id : Option String)
    (now : Nat) (walOk : Bool) :
    StoreInv (voidLineItemLegal s h line_number reason operator_id now walOk).2 := by
  unfold voidLineItemLegal
  split
  · exact hs
  · next tx hl =>
    have htx : TxInv tx := hs _ (lookupTx_mem hl)
    split
    · split
      · exact hs
      · split
        · exact hs
        · next tx1 hv =>
          have ht1 : TxInv tx1 := txInv_void htx hv
          refine storeInv_walLog_eq (s := updateTx s h
            { tx1 with last_activity := now }) ?_ rfl
          exact storeInv_updateTx hs ht1
    · exact hs

theorem storeInv_update_qty {s : LegalKernelStore} (hs : StoreInv s)
    (h line_number : Nat) (new_quantity : Int) (operator_id : Option String)
    (now : Nat) (walOk : Bool) :
    StoreInv (updateLineQuantityLegal s h line_number new_quantity
      operator_id now walOk).2 := by
  unfold updateLineQuantityLegal
  split
  · exact hs
  · next tx hl =>
    have htx : TxInv tx := hs _ (lookupTx_mem hl)
    split
    · split
      · exact hs
      · split
        · exact hs
        · next tx1 hv =>
          have ht1 : TxInv tx1 := txInv_update_qty htx hv
          refine storeInv_walLog_eq (s := updateTx s h
            { tx1 with last_activity := now }) ?_ rfl
          exact storeInv_updateTx hs ht1
    · exact hs

theorem storeInv_close {s : LegalKernelStore} (hs : StoreInv s) (h : Nat) :
    StoreInv (pk_close_transaction_legal s h).2 := by
  unfold pk_close_transaction_legal
  split
  · exact hs
  · split
    · intro p hp
      simp only [] at hp
      exact hs p (List.mem_of_mem_filter hp)
    · exact hs

/-- Every reachable kernel state satisfies the store invariant. -/
theorem reachable_storeInv {s : LegalKernelStore} (hr : Reachable s) :
    StoreInv s := by
  induction hr with
  | init => intro p hp; simp [LegalKernelStore.new] at hp
  | step_begin s store currency now walOk _ ih =>
    exact storeInv_begin ih store currency now walOk
  | step_add_line s h sku qty unit_minor now walOk _ ih =>
    exact storeInv_add_line ih h sku qty unit_minor now walOk
  | step_add_tender s h amount now walOk cOk _ ih =>
    exact storeInv_add_tender ih h amount now walOk cOk
  | step_commit s h now walOk _ ih => exact storeInv_commit ih h now walOk
  | step_abort s h reason walOk _ ih => exact storeInv_abort ih h reason walOk
  | step_void s h n reason op now walOk _ ih =>
    exact storeInv_void ih h n reason op now walOk
  | step_update_qty s h n q op now walOk _ ih =>
    exact storeInv_update_qty ih h n q op now walOk
  | step_close s h _ ih => exact storeInv_close ih h

/-- `void_line_item` never changes the transaction state. -/
theorem void_line_item_state {tx tx' : LegalTransaction} {n : Nat}
    {reason : String} {op : Option String} {now : Nat}
    (hv : tx.void_line_item n reason op now = .ok tx') :
    tx'.state = tx.state := by
  unfold LegalTransaction.void_line_item at hv
  split at hv
  · exact absurd hv (by simp)
  · split at hv
    · exact absurd hv (by simp)
    · simp only [Except.ok.injEq] at hv
      subst hv
      rfl

/-- `update_line_quantity` never changes the transaction state. -/
theorem update_line_quantity_state {tx tx' : LegalTransaction} {n : Nat}
    {q : Int} {op : Option String} {now : Nat}
    (hv : tx.update_line_quantity n q op now = .ok tx') :
    tx'.state = tx.state := by
  unfold LegalTransaction.update_line_quantity at hv
  split at hv
  · exact absurd hv (by simp)
  · split at hv
    · exact absurd hv (by simp)
    · simp only [ne_eq] at hv
      split at hv
      · simp only [Except.ok.injEq] at hv
        subst hv
        rfl
      · simp only [Except.ok.injEq] at hv
        subst hv
        rfl

/-- Handle-registry invariant: the association list faithfully represents a
`HashMap` (pairwise-distinct handles), handles stay below the allocator
counter (so a fresh id never collides), and a registered transaction rests
only in Building, Committed or Aborted (Committing/Aborting are transient
within one locked operation and nothing ever sets TimedOut). -/
def HandleInv (s : LegalKernelStore) : Prop :=
  (s.active_transactions.map Prod.fst).Nodup ∧
  (∀ p ∈ s.active_transactions, p.1 < s.next_tx_id) ∧
  (∀ p ∈ s.active_transactions,
    p.2.state = LegalTxState.building ∨
    p.2.state = LegalTxState.committed ∨
    p.2.state = LegalTxState.aborted)

theorem handleInv_of_active_eq_of_le {s s' : LegalKernelStore}
    (hi : HandleInv s)
    (ha : s'.active_transactions = s.active_transactions)
    (hn : s.next_tx_id ≤ s'.next_tx_id) : HandleInv s' := by
  refine ⟨by rw [ha]; exact hi.1, ?_, ?_⟩
  · intro p hp
    rw [ha] at hp
    have := hi.2.1 p hp
    omega
  · intro p hp
    rw [ha] at hp
    exact hi.2.2 p hp

theorem handleInv_updateTx {s : LegalKernelStore} {h : Nat}
    {tx' : LegalTransaction} (hi : HandleInv s)
    (hst : tx'.state = LegalTxState.building ∨
      tx'.state = LegalTxState.committed ∨
      tx'.state = LegalTxState.aborted) :
    HandleInv (updateTx s h tx') := by
  refine ⟨?_, ?_, ?_⟩
  · rw [map_fst_updateTx]
    exact hi.1
  · intro p hp
    obtain ⟨q, hq, hpq⟩ := mem_updateTx' hp
    have hqb := hi.2.1 q hq
    rcases hpq with rfl | ⟨hk, rfl⟩
    · exact hqb
    · show h < s.next_tx_id
      rw [← hk]
      exact hqb
  · intro p hp
    obtain ⟨q, hq, hpq⟩ := mem_updateTx' hp
    rcases hpq with rfl | ⟨hk, rfl⟩
    · exact hi.2.2 p hq
    · exact hst

theorem handleInv_walLog_eq {s s1 : LegalKernelStore} {h : Nat} {op : WalOp}
    {ok : Bool} {r : Except KErr Nat} (hi : HandleInv s)
    (hw : walLogOperation s h op ok = (r, s1)) : HandleInv s1 :=
  handleInv_of_active_eq_of_le hi (walLog_eq_active hw)
    (le_of_eq (walLog_eq_next hw).symm)

theorem handleInv_begin {s : LegalKernelStore} (hi : HandleInv s)
    (store : String) (currency : Currency) (now : Nat) (walOk : Bool) :
    HandleInv (beginTransactionLegal s store currency now walOk).2 := by
  simp only [beginTransactionLegal]
  split
  · next e s2 hw =>
    have h0a := walLog_eq_active hw
    have h0n := walLog_eq_next hw
    have hact : s2.active_transactions = s.active_transactions := h0a
    have hnext : s2.next_tx_id = s.next_tx_id + 1 := h0n
    refine handleInv_of_active_eq_of_le hi hact ?_
    show s.next_tx_id ≤ s2.next_tx_id
    omega
  · next seq s2 hw =>
    have h0a := walLog_eq_active hw
    have h0n := walLog_eq_next hw
    have hact : s2.active_transactions = s.active_transactions := h0a
    have hnext : s2.next_tx_id = s.next_tx_id + 1 := h0n
    refine ⟨?_, ?_, ?_⟩
    · show ((s2.active_transactions ++
        [(s.next_tx_id, LegalTransaction.new s.next_tx_id store currency seq
          now)]).map Prod.fst).Nodup
      rw [List.map_append, hact, List.nodup_append]
      refine ⟨hi.1, by simp, ?_⟩
      intro a ha hb
      simp only [List.map_cons, List.map_nil, List.mem_singleton] at hb
      subst hb
      obtain ⟨p, hp, hpa⟩ := List.mem_map.mp ha
      have := hi.2.1 p hp
      omega
    · intro p hp
      rcases List.mem_append.mp hp with hm | hm
      · rw [hact] at hm
        have := hi.2.1 p hm
        show p.1 < s2.next_tx_id
        omega
      · simp only [List.mem_singleton] at hm
        subst hm
        show s.next_tx_id < s2.next_tx_id
        omega
    · intro p hp
      rcases List.mem_append.mp hp with hm | hm
      · rw [hact] at hm
        exact hi.2.2 p hm
      · simp only [List.mem_singleton] at hm
        subst hm
        left
        rfl

theorem handleInv_add_line {s : LegalKernelStore} (hi : HandleInv s)
    (h : Nat) (sku : String) (qty unit_minor : Int) (now : Nat)
    (walOk : Bool) :
    HandleInv (addLineLegal s h sku qty unit_minor now walOk).2 := by
  unfold addLineLegal
  split
  · exact hi
  · next tx hl =>
    split
    · next hst =>
      split
      · exact hi
      · split
        · next e s1 hw => exact handleInv_walLog_eq hi hw
        · next a s1 hw =>
          refine handleInv_updateTx (handleInv_walLog_eq hi hw) ?_
          left
          exact hst
    · exact hi

theorem handleInv_commit {s : LegalKernelStore} (hi : HandleInv s)
    (h : Nat) (now : Nat) (walOk : Bool) :
    HandleInv (commitTransactionLegal s h now walOk).2 := by
  simp only [commitTransactionLegal]
  split
  · exact hi
  · next tx hl =>
    split
    · exact hi
    · split
      · next seq s1 hw =>
        refine handleInv_updateTx (handleInv_walLog_eq hi hw) ?_
        right
        left
        rfl
      · next e s1 hw =>
        refine handleInv_updateTx (handleInv_walLog_eq hi hw) ?_
        left
        rfl

theorem handleInv_add_tender {s : LegalKernelStore} (hi : HandleInv s)
    (h : Nat) (amount_minor : Int) (now : Nat) (walOk commitWalOk : Bool) :
    HandleInv (addTenderLegal s h amount_minor now walOk commitWalOk).2 := by
  simp only [addTenderLegal]
  split
  · exact hi
  · next tx hl =>
    split
    · next hst =>
      split
      · exact hi
      · split
        · next e s1 hw => exact handleInv_walLog_eq hi hw
        · next a s1 hw =>
          have hi2 : HandleInv (updateTx s1 h
              { tx with
                tendered_minor := tx.tendered_minor + amount_minor,
                last_activity := now }) := by
            refine handleInv_updateTx (handleInv_walLog_eq hi hw) ?_
            left
            exact hst
          split
          · exact handleInv_commit hi2 h now commitWalOk
          · exact hi2
    · exact hi

theorem handleInv_abort {s : LegalKernelStore} (hi : HandleInv s)
    (h : Nat) (reason : String) (walOk : Bool) :
    HandleInv (abortTransactionLegal s h reason walOk).2 := by
  simp only [abortTransactionLegal]
  split
  · exact hi
  · next tx hl =>
    split
    · exact hi
    · split
      · next a s1 hw =>
        refine handleInv_updateTx (handleInv_walLog_eq hi hw) ?_
        right
        right
        rfl
      · next e s1 hw =>
        refine handleInv_updateTx (handleInv_walLog_eq hi hw) ?_
        left
        rfl

theorem handleInv_void {s : LegalKernelStore} (hi : HandleInv s)
    (h line_number : Nat) (reason : String) (operator_id : Option String)
    (now : Nat) (walOk : Bool) :
    HandleInv
      (voidLineItemLegal s h line_number reason operator_id now walOk).2 := by
  unfold voidLineItemLegal
  split
  · exact hi
  · next tx hl =>
    split
    · next hst =>
      split
      · exact hi
      · split
        · exact hi
        · next tx1 hv =>
          have hi1 : HandleInv (updateTx s h
              { tx1 with last_activity := now }) := by
            refine handleInv_updateTx hi ?_
            left
            exact (void_line_item_state hv).trans hst
          refine handleInv_of_active_eq_of_le hi1 ?_ ?_
          · exact walLog_active _ _ _ _
          · exact le_of_eq (walLog_next _ _ _ _).symm
    · exact hi

theorem handleInv_update_qty {s : LegalKernelStore} (hi : HandleInv s)
    (h line_number : Nat) (new_quantity : Int) (operator_id : Option String)
    (now : Nat) (walOk : Bool) :
    HandleInv (updateLineQuantityLegal s h line_number new_quantity
      operator_id now walOk).2 := by
  unfold updateLineQuantityLegal
  split
  · exact hi
  · next tx hl =>
    split
    · next hst =>
      split
      · exact hi
      · split
        · exact hi
        · next tx1 hv =>
          have hi1 : HandleInv (updateTx s h
              { tx1 with last_activity := now }) := by
            refine handleInv_updateTx hi ?_
            left
            exact (update_line_quantity_state hv).trans hst
          refine handleInv_of_active_eq_of_le hi1 ?_ ?_
          · exact walLog_active _ _ _ _
          · exact le_of_eq (walLog_next _ _ _ _).symm
    · exact hi

theorem handleInv_close {s : LegalKernelStore} (hi : HandleInv s) (h : Nat) :
    HandleInv (pk_close_transaction_legal s h).2 := by
  unfold pk_close_transaction_legal
  split
  · exact hi
  · split
    · refine ⟨?_, ?_, ?_⟩
      · exact List.Nodup.sublist
          (List.Sublist.map Prod.fst (List.filter_sublist _)) hi.1
      · intro p hp
        exact hi.2.1 p (List.mem_of_mem_filter hp)
      · intro p hp
        exact hi.2.2 p (List.mem_of_mem_filter hp)
    · exact hi

/-- Every reachable kernel state satisfies the handle-registry invariant. -/
theorem reachable_handleInv {s : LegalKernelStore} (hr : Reachable s) :
    HandleInv s := by
  induction hr with
  | init =>
    refine ⟨?_, ?_, ?_⟩ <;> simp [LegalKernelStore.new]
  | step_begin s store currency now walOk _ ih =>
    exact handleInv_begin ih store currency now walOk
  | step_add_line s h sku qty unit_minor now walOk _ ih =>
    exact handleInv_add_line ih h sku qty unit_minor now walOk
  | step_add_tender s h amount now walOk cOk _ ih =>
    exact handleInv_add_tender ih h amount now walOk cOk
  | step_commit s h now walOk _ ih => exact handleInv_commit ih h now walOk
  | step_abort s h reason walOk _ ih =>
    exact handleInv_abort ih h reason walOk
  | step_void s h n reason op now walOk _ ih =>
    exact handleInv_void ih h n reason op now walOk
  | step_update_qty s h n q op now walOk _ ih =>
    exact handleInv_update_qty ih h n q op now walOk
  | step_close s h _ ih => exact handleInv_close ih h

/-! ## Concrete scenario states (spec end-to-end scenario 5) -/

/-- After `begin("STORE01","USD")` at time 100 (handle 1). -/
def scn1 : LegalKernelStore :=
  (pk_begin_transaction_legal LegalKernelStore.new "STORE01" "USD" 100 true).2

/-- After `add_line(1,"X",1,1000)`. -/
def scn2 : LegalKernelStore := (pk_add_line_legal scn1 1 "X" 1 1000 100 true).2

/-- After `add_cash_tender(1,600)` (600 < 1000: still Building). -/
def scn3 : LegalKernelStore :=
  (pk_add_cash_tender_legal scn2 1 600 100 true true).2

/-- After a further `add_cash_tender(1,500)` (1100 ≥ 1000: auto-commit). -/
def scn4 : LegalKernelStore :=
  (pk_add_cash_tender_legal scn3 1 500 100 true true).2

/-- After `abort(1,"changed mind")` on `scn2`. -/
def scnAborted : LegalKernelStore :=
  (pk_abort_transaction_legal scn2 1 "changed mind" true).2

theorem reachable_scn2 : Reachable scn2 :=
  Reachable.step_add_line scn1 1 "X" 1 1000 100 true
    (Reachable.step_begin LegalKernelStore.new "STORE01" Currency.usd 100
      true Reachable.init)

/-! ## Claims -/

/-- C1: for every transaction at every point in its lifetime (any store
state, any registered handle), the totals query reports
`total = Σ (qty * unit_price_minor)` over all lines regardless of entry
kind, the raw tendered amount, and `change = max(0, tendered − total)`. -/
theorem totals_report_sum_and_change (s : LegalKernelStore) (h : Nat)
    (tx : LegalTransaction) (hh : h ≠ 0) (hl : lookupTx s h = some tx) :
    pk_get_totals_legal s h =
      (.ok, some ((tx.lines.map (fun l => l.qty * l.unit_minor)).sum,
        tx.tendered_minor,
        max 0 (tx.tendered_minor -
          (tx.lines.map (fun l => l.qty * l.unit_minor)).sum),
        stateCode tx.state)) := by
  have hmap : tx.lines.map (fun l => l.qty * l.unit_minor) =
      tx.lines.map Line.total_minor := by
    apply List.map_congr_left
    intro l _
    simp [Line.total_minor, Int.mul_comm]
  unfold pk_get_totals_legal
  rw [if_neg hh, hl]
  simp [LegalTransaction.total_minor, LegalTransaction.change_minor, hmap,
    max_comm]

/-- Witness for C1 at the concrete scenario state `scn3`
(total 1000, tendered 600, change 0, state Building). -/
theorem totals_report_sum_and_change_witness :
    pk_get_totals_legal scn3 1 = (.ok, some (1000, 600, 0, 0)) :=
  (totals_report_sum_and_change scn3 1 _ (by decide) rfl).trans (by decide)

/-- C4: a WAL append/flush failure of the terminal record during commit of a
Building transaction leaves the caller with `InternalError` and the
transaction reverted to Building, its lines and tendered amount unchanged
(the transaction re-read after the call is the untouched original). -/
theorem commit_wal_failure_reverts_to_building (s : LegalKernelStore)
    (h now : Nat) (tx : LegalTransaction) (hh : h ≠ 0)
    (hl : lookupTx s h = some tx) (hb : tx.state = LegalTxState.building) :
    (pk_commit_transaction_legal s h now false).1 = .internalError ∧
    lookupTx (pk_commit_transaction_legal s h now false).2 h = some tx := by
  unfold pk_commit_transaction_legal
  rw [if_neg hh]
  simp only [commitTransactionLegal, hl]
  rw [if_neg (by simp [hb])]
  simp only [walLogOperation, Bool.false_eq_true, if_false]
  constructor
  · exact (by decide : routeCommitErr KErr.walFailed = ResultCode.internalError)
  · rw [show ({ tx with state := LegalTxState.building } : LegalTransaction)
      = tx from tx_eta_building hb]
    exact lookupTx_updateTx tx hl

/-- Witness for C4: committing `scn2` (Building, one line, tendered 0) with a
failing WAL flush returns InternalError and leaves the transaction as it
was. -/
theorem commit_wal_failure_reverts_to_building_witness :
    (pk_commit_transaction_legal scn2 1 100 false).1 = .internalError ∧
    lookupTx (pk_commit_transaction_legal scn2 1 100 false).2 1 =
      lookupTx scn2 1 := by
  have hc := commit_wal_failure_reverts_to_building scn2 1 100 _
    (by decide) rfl rfl
  exact ⟨hc.1, hc.2.trans (by decide)⟩

/-- C7: a second abort on an already-Aborted transaction fails with
`InvalidState`, and the entire store — the transaction, the WAL entries and
even the WAL sequence counter — is unchanged. -/
theorem abort_on_aborted_invalid_state (s : LegalKernelStore) (h : Nat)
    (reason : String) (walOk : Bool) (tx : LegalTransaction) (hh : h ≠ 0)
    (hl : lookupTx s h = some tx) (ha : tx.state = LegalTxState.aborted) :
    pk_abort_transaction_legal s h reason walOk = (.invalidState, s) := by
  unfold pk_abort_transaction_legal
  rw [if_neg hh]
  simp only [abortTransactionLegal, hl]
  rw [if_pos (by simp [ha])]
  simp [show routeAbortErr KErr.alreadyFinalized = ResultCode.invalidState
    from by decide]

/-- Witness for C7: a second abort on the aborted scenario transaction. -/
theorem abort_on_aborted_invalid_state_witness :
    pk_abort_transaction_legal scnAborted 1 "again" true =
      (.invalidState, scnAborted) :=
  abort_on_aborted_invalid_state scnAborted 1 "again" true _
    (by decide) rfl rfl

/-- C3: after every successful `add_cash_tender` on a Building transaction
the transaction's lines are unchanged, the tendered amount has grown by the
tender, and the state is Committed exactly when the cumulative tendered
amount has reached the total, Building otherwise. -/
theorem add_tender_state_after_success (s : LegalKernelStore) (h : Nat)
    (tx : LegalTransaction) (amount : Int) (now : Nat)
    (walOk commitWalOk : Bool) (hl : lookupTx s h = some tx)
    (hb : tx.state = LegalTxState.building)
    (hok : (addTenderLegal s h amount now walOk commitWalOk).1 = .ok ()) :
    ∃ tx',
      lookupTx (addTenderLegal s h amount now walOk commitWalOk).2 h =
        some tx' ∧
      tx'.lines = tx.lines ∧
      tx'.tendered_minor = tx.tendered_minor + amount ∧
      tx'.state = (if tx'.total_minor ≤ tx'.tendered_minor then
        LegalTxState.committed else LegalTxState.building) := by
  simp only [addTenderLegal, hl, hb] at hok ⊢
  split
  · next hexp => rw [if_pos hexp] at hok; exact absurd hok (by simp)
  · next hexp =>
    rw [if_neg hexp] at hok
    split
    · next e s1 hw => rw [hw] at hok; exact absurd hok (by simp)
    · next a s1 hw =>
      rw [hw] at hok
      simp only [] at hok
      have hl1 : lookupTx s1 h = some tx := by
        rw [lookupTx_eq_of_active (walLog_eq_active hw) h]; exact hl
      have hl2 := lookupTx_updateTx
        { tx with
          tendered_minor := tx.tendered_minor + amount,
          last_activity := now } hl1
      rw [hb] at hl2
      split at hok
      · next hge =>
        rw [if_pos hge]
        simp only [commitTransactionLegal, hl2] at hok ⊢
        rw [if_neg (by simp)] at hok ⊢
        split
        · next seq s3 hw2 =>
          have hl3 := (lookupTx_eq_of_active (walLog_eq_active hw2) h).trans hl2
          refine ⟨_, lookupTx_updateTx _ hl3, rfl, rfl, ?_⟩
          split
          · rfl
          · next hlt => exact absurd hge hlt
        · next e s3 hw2 => rw [hw2] at hok; exact absurd hok (by simp)
      · next hge =>
        rw [if_neg hge]
        refine ⟨_, hl2, rfl, rfl, ?_⟩
        split
        · next hle => exact absurd hle hge
        · rfl

/-- Witness for C3, the spec's scenario 5: tender 600 on a 1000 total leaves
Building with change 0; a further 500 commits with change 100. -/
theorem add_tender_state_after_success_witness :
    pk_get_totals_legal scn3 1 = (.ok, some (1000, 600, 0, 0)) ∧
    pk_get_totals_legal scn4 1 = (.ok, some (1000, 1100, 100, 2)) ∧
    ((lookupTx (addTenderLegal scn3 1 500 100 true true).2 1).map
      LegalTransaction.state) = some LegalTxState.committed := by
  refine ⟨by decide, by decide, ?_⟩
  obtain ⟨tx', h1, h2, h3, h4⟩ :=
    add_tender_state_after_success scn3 1 _ 500 100 true true rfl rfl
      (by decide)
  have hc : tx'.total_minor ≤ tx'.tendered_minor := by
    unfold LegalTransaction.total_minor
    rw [h2, h3]
    decide
  rw [h1]
  rw [show (some tx').map LegalTransaction.state = some tx'.state from rfl]
  rw [h4, if_pos hc]

/-- Counterexample for C8: a mutation on an expired Building transaction
(begun at t=100, attempted at t=401 with the 300 s default timeout) fails
with TimedOut, but — contrary to the claim — the transaction is NOT moved to
state TimedOut and no transition is logged: the store is unchanged and the
state is still Building. -/
theorem timeout_no_state_transition_cex :
    (pk_add_line_legal scn1 1 "X" 1 100 401 true).1 = .timedOut ∧
    (pk_add_line_legal scn1 1 "X" 1 100 401 true).2 = scn1 ∧
    (lookupTx (pk_add_line_legal scn1 1 "X" 1 100 401 true).2 1).map
      LegalTransaction.state = some LegalTxState.building := by decide

/-- C8 as amended: a mutation (`add_line` or `add_cash_tender`) on a Building
transaction whose inactivity exceeds the timeout fails with result code
TimedOut, and the store is completely unchanged — the transaction remains in
Building and nothing is logged. -/
theorem expired_mutation_fails_timedOut_store_unchanged
    (s : LegalKernelStore) (h : Nat) (tx : LegalTransaction) (sku : String)
    (qty unit_minor amount : Int) (now : Nat) (walOk cOk : Bool)
    (hh : h ≠ 0) (hq : 0 < qty) (hu : 0 ≤ unit_minor)
    (hsku : sku.data ≠ []) (hamt : 0 < amount)
    (hl : lookupTx s h = some tx) (hb : tx.state = LegalTxState.building)
    (hexp : tx.is_expired s.system_config.transaction_timeout_seconds now
      = true) :
    pk_add_line_legal s h sku qty unit_minor now walOk = (.timedOut, s) ∧
    pk_add_cash_tender_legal s h amount now walOk cOk = (.timedOut, s) := by
  have hroute : routeMutationErr KErr.expired = ResultCode.timedOut := by
    decide
  constructor
  · unfold pk_add_line_legal
    rw [if_neg (by push_neg; exact ⟨hh, hq, hu⟩)]
    rw [if_neg (by simp [hsku])]
    simp only [addLineLegal, hl, hb]
    rw [if_pos hexp]
    simp [hroute]
  · unfold pk_add_cash_tender_legal
    rw [if_neg (by push_neg; exact ⟨hh, hamt⟩)]
    simp only [addTenderLegal, hl, hb]
    rw [if_pos hexp]
    simp [hroute]

/-- Witness for the amended C8 at the concrete expired scenario. -/
theorem expired_mutation_fails_timedOut_store_unchanged_witness :
    pk_add_line_legal scn1 1 "X" 1 100 401 true = (.timedOut, scn1) ∧
    pk_add_cash_tender_legal scn1 1 500 401 true true = (.timedOut, scn1) :=
  expired_mutation_fails_timedOut_store_unchanged scn1 1 _ "X" 1 100 500 401
    true true (by decide) (by decide) (by decide) (by decide) (by decide)
    rfl rfl rfl

/-- C9: close on an existing (non-zero) handle returns Ok, removes the
transaction from the registry regardless of its state, writes no WAL record
(entries and sequence counter untouched), and afterwards every query on the
handle answers NotFound. -/
theorem close_transaction_removes_handle (s : LegalKernelStore) (h : Nat)
    (tx : LegalTransaction) (hh : h ≠ 0) (hl : lookupTx s h = some tx) :
    (pk_close_transaction_legal s h).1 = .ok ∧
    (pk_close_transaction_legal s h).2.wal_entries = s.wal_entries ∧
    (pk_close_transaction_legal s h).2.wal_next_seq = s.wal_next_seq ∧
    lookupTx (pk_close_transaction_legal s h).2 h = none ∧
    pk_get_totals_legal (pk_close_transaction_legal s h).2 h =
      (.notFound, none) ∧
    pk_get_line_count (pk_close_transaction_legal s h).2 h =
      (.notFound, none) ∧
    pk_get_currency_decimal_places (pk_close_transaction_legal s h).2 h =
      (.notFound, none) ∧
    pk_get_store_name (pk_close_transaction_legal s h).2 h =
      (.notFound, none) ∧
    pk_get_currency (pk_close_transaction_legal s h).2 h =
      (.notFound, none) := by
  have hres : pk_close_transaction_legal s h = (.ok, { s with
      active_transactions :=
        (s.active_transactions.filter (fun p => p.1 != h)),
      transaction_timeouts :=
        (s.transaction_timeouts.filter (fun p => p.1 != h)) }) := by
    unfold pk_close_transaction_legal
    rw [if_neg hh, hl]
  have hera : lookupTx (pk_close_transaction_legal s h).2 h = none := by
    rw [hres]
    unfold lookupTx
    simp only []
    rw [find?_filter_ne]
    rfl
  refine ⟨by rw [hres], by rw [hres], by rw [hres], hera, ?_, ?_, ?_, ?_, ?_⟩
  · unfold pk_get_totals_legal
    rw [if_neg hh, hera]
  · unfold pk_get_line_count
    rw [if_neg hh, hera]
  · unfold pk_get_currency_decimal_places
    rw [if_neg hh, hera]
  · unfold pk_get_store_name
    rw [if_neg hh, hera]
  · unfold pk_get_currency
    rw [if_neg hh, hera]

/-- Witness for C9: closing the still-Building scenario transaction. -/
theorem close_transaction_removes_handle_witness :
    (pk_close_transaction_legal scn3 1).1 = .ok ∧
    (pk_close_transaction_legal scn3 1).2.wal_entries = scn3.wal_entries ∧
    (pk_close_transaction_legal scn3 1).2.wal_next_seq = scn3.wal_next_seq ∧
    lookupTx (pk_close_transaction_legal scn3 1).2 1 = none ∧
    pk_get_totals_legal (pk_close_transaction_legal scn3 1).2 1 =
      (.notFound, none) ∧
    pk_get_line_count (pk_close_transaction_legal scn3 1).2 1 =
      (.notFound, none) ∧
    pk_get_currency_decimal_places (pk_close_transaction_legal scn3 1).2 1 =
      (.notFound, none) ∧
    pk_get_store_name (pk_close_transaction_legal scn3 1).2 1 =
      (.notFound, none) ∧
    pk_get_currency (pk_close_transaction_legal scn3 1).2 1 =
      (.notFound, none) :=
  close_transaction_removes_handle scn3 1 _ (by decide) rfl


/-- Counterexample for C2: voiding the sole line of the scenario transaction
with a FAILING WAL append nevertheless succeeds, applies the in-memory
mutation (the transaction grows from 1 line to 2), and leaves the WAL
without any record of it — the mutation is not rejected and the model is not
left unmodified. -/
theorem void_line_wal_failure_not_rejected_cex :
    (pk_void_line_legal scn2 1 1 "damaged" 100 false).1 = .ok ∧
    (pk_void_line_legal scn2 1 1 "damaged" 100 false).2.wal_entries =
      scn2.wal_entries ∧
    (lookupTx (pk_void_line_legal scn2 1 1 "damaged" 100 false).2 1).map
      (fun t => t.lines.length) = some 2 ∧
    (lookupTx scn2 1).map (fun t => t.lines.length) = some 1 := by decide

/-- C2 as amended: for `begin_transaction`, `add_line`, `add_cash_tender`
(its own tender record), `commit` and `abort` the WAL record is appended and
flushed before the in-memory mutation — a WAL failure rejects the operation
and leaves the transactions map and the WAL entries unmodified (only the
sequence counter advances), while a successful `add_line` appends exactly
its record; `void_line`, however, applies the in-memory void first and
ignores a WAL failure: its result is identical whether or not the append
succeeds, and on failure no record is written. -/
theorem wal_write_precedes_mutation_except_void :
    (∀ (s : LegalKernelStore) (st : String) (c : Currency) (now : Nat),
      (beginTransactionLegal s st c now false).1 = .error .walFailed ∧
      (beginTransactionLegal s st c now false).2.active_transactions =
        s.active_transactions ∧
      (beginTransactionLegal s st c now false).2.wal_entries =
        s.wal_entries) ∧
    (∀ (s : LegalKernelStore) (h : Nat) (sku : String) (qty unit : Int)
        (now : Nat),
      (addLineLegal s h sku qty unit now false).1.isOk = false ∧
      (addLineLegal s h sku qty unit now false).2.active_transactions =
        s.active_transactions ∧
      (addLineLegal s h sku qty unit now false).2.wal_entries =
        s.wal_entries) ∧
    (∀ (s : LegalKernelStore) (h : Nat) (amount : Int) (now : Nat)
        (cOk : Bool),
      (addTenderLegal s h amount now false cOk).1.isOk = false ∧
      (addTenderLegal s h amount now false cOk).2.active_transactions =
        s.active_transactions ∧
      (addTenderLegal s h amount now false cOk).2.wal_entries =
        s.wal_entries) ∧
    (∀ (s : LegalKernelStore) (h : Nat) (now : Nat), Reachable s →
      (commitTransactionLegal s h now false).1.isOk = false ∧
      (commitTransactionLegal s h now false).2.active_transactions =
        s.active_transactions ∧
      (commitTransactionLegal s h now false).2.wal_entries =
        s.wal_entries) ∧
    (∀ (s : LegalKernelStore) (h : Nat) (reason : String), Reachable s →
      (abortTransactionLegal s h reason false).1.isOk = false ∧
      (abortTransactionLegal s h reason false).2.active_transactions =
        s.active_transactions ∧
      (abortTransactionLegal s h reason false).2.wal_entries =
        s.wal_entries) ∧
    (∀ (s : LegalKernelStore) (h : Nat) (tx : LegalTransaction)
        (sku : String) (qty unit : Int) (now : Nat),
      lookupTx s h = some tx → tx.state = LegalTxState.building →
      tx.is_expired s.system_config.transaction_timeout_seconds now
        = false →
      (addLineLegal s h sku qty unit now true).1 = .ok () ∧
      (addLineLegal s h sku qty unit now true).2.wal_entries =
        s.wal_entries ++ [⟨s.wal_next_seq, h, .lineAdd sku qty unit⟩]) ∧
    (∀ (s : LegalKernelStore) (h n : Nat) (reason : String)
        (op : Option String) (now : Nat),
      (voidLineItemLegal s h n reason op now false).1 =
        (voidLineItemLegal s h n reason op now true).1 ∧
      (voidLineItemLegal s h n reason op now false).2.wal_entries =
        s.wal_entries) := by
  refine ⟨?_, ?_, ?_, ?_, ?_, ?_, ?_⟩
  · intro s st c now
    simp [beginTransactionLegal, walLog_false]
  · intro s h sku qty unit now
    unfold addLineLegal
    split
    · exact ⟨rfl, rfl, rfl⟩
    · split
      · split
        · exact ⟨rfl, rfl, rfl⟩
        · rw [walLog_false]
          exact ⟨rfl, rfl, rfl⟩
      · exact ⟨rfl, rfl, rfl⟩
  · intro s h amount now cOk
    unfold addTenderLegal
    split
    · exact ⟨rfl, rfl, rfl⟩
    · split
      · split
        · exact ⟨rfl, rfl, rfl⟩
        · rw [walLog_false]
          exact ⟨rfl, rfl, rfl⟩
      · exact ⟨rfl, rfl, rfl⟩
  · intro s h now hr
    have hi := reachable_handleInv hr
    simp only [commitTransactionLegal]
    split
    · exact ⟨rfl, rfl, rfl⟩
    · next tx hl =>
      split
      · exact ⟨rfl, rfl, rfl⟩
      · next hnb =>
        have hb : tx.state = LegalTxState.building := not_not.mp hnb
        rw [walLog_false]
        refine ⟨rfl, ?_, rfl⟩
        have hl1 : lookupTx { s with wal_next_seq := s.wal_next_seq + 1 } h =
            some tx := hl
        have hnd : (({ s with
            wal_next_seq := s.wal_next_seq + 1 } :
            LegalKernelStore).active_transactions.map Prod.fst).Nodup := hi.1
        show (updateTx { s with wal_next_seq := s.wal_next_seq + 1 } h
          { tx with state := LegalTxState.building }).active_transactions =
            s.active_transactions
        rw [tx_eta_building hb]
        exact updateTx_eq_self_active hnd hl1
  · intro s h reason hr
    have hi := reachable_handleInv hr
    simp only [abortTransactionLegal]
    split
    · exact ⟨rfl, rfl, rfl⟩
    · next tx hl =>
      split
      · exact ⟨rfl, rfl, rfl⟩
      · next hnf =>
        have hb : tx.state = LegalTxState.building := by
          rcases hi.2.2 (h, tx) (lookupTx_mem hl) with hs1 | hs1 | hs1
          · exact hs1
          · exact absurd (Or.inl hs1) hnf
          · exact absurd (Or.inr hs1) hnf
        rw [walLog_false]
        refine ⟨rfl, ?_, rfl⟩
        have hl1 : lookupTx { s with wal_next_seq := s.wal_next_seq + 1 } h =
            some tx := hl
        have hnd : (({ s with
            wal_next_seq := s.wal_next_seq + 1 } :
            LegalKernelStore).active_transactions.map Prod.fst).Nodup := hi.1
        show (updateTx { s with wal_next_seq := s.wal_next_seq + 1 } h
          { tx with state := LegalTxState.building }).active_transactions =
            s.active_transactions
        rw [tx_eta_building hb]
        exact updateTx_eq_self_active hnd hl1
  · intro s h tx sku qty unit now hl hb hexp
    simp only [addLineLegal, hl, hb]
    rw [if_neg (by simp [hexp]), walLog_true]
    exact ⟨rfl, rfl⟩
  · intro s h n reason op now
    constructor
    · unfold voidLineItemLegal
      split
      · rfl
      · split
        · split
          · rfl
          · split
            · rfl
            · rfl
        · rfl
    · unfold voidLineItemLegal
      split
      · rfl
      · split
        · split
          · rfl
          · split
            · rfl
            · simp only [logWalEntry]
              rw [walLog_false]
              rfl
        · rfl

/-- Witness for the amended C2: a failing begin on a fresh store rejects
with nothing registered; a failing commit and a failing abort on the
reachable scenario store reject leaving its transactions map and WAL
entries unmodified; and a successful `add_line` on the scenario store
appends exactly its WAL record. -/
theorem wal_write_precedes_mutation_except_void_witness :
    ((beginTransactionLegal LegalKernelStore.new "STORE01" Currency.usd 100
        false).1 = .error .walFailed ∧
      (beginTransactionLegal LegalKernelStore.new "STORE01" Currency.usd 100
        false).2.active_transactions = [] ∧
      (beginTransactionLegal LegalKernelStore.new "STORE01" Currency.usd 100
        false).2.wal_entries = []) ∧
    ((commitTransactionLegal scn2 1 100 false).1.isOk = false ∧
      (commitTransactionLegal scn2 1 100 false).2.active_transactions =
        scn2.active_transactions ∧
      (commitTransactionLegal scn2 1 100 false).2.wal_entries =
        scn2.wal_entries) ∧
    ((abortTransactionLegal scn2 1 "changed mind" false).1.isOk = false ∧
      (abortTransactionLegal scn2 1 "changed mind"
        false).2.active_transactions = scn2.active_transactions ∧
      (abortTransactionLegal scn2 1 "changed mind" false).2.wal_entries =
        scn2.wal_entries) ∧
    ((addLineLegal scn1 1 "COFFEE" 1 350 100 true).1 = .ok () ∧
      (addLineLegal scn1 1 "COFFEE" 1 350 100 true).2.wal_entries =
        scn1.wal_entries ++
          [⟨scn1.wal_next_seq, 1, .lineAdd "COFFEE" 1 350⟩]) :=
  ⟨wal_write_precedes_mutation_except_void.1 LegalKernelStore.new "STORE01"
      Currency.usd 100,
    wal_write_precedes_mutation_except_void.2.2.2.1 scn2 1 100
      reachable_scn2,
    wal_write_precedes_mutation_except_void.2.2.2.2.1 scn2 1 "changed mind"
      reachable_scn2,
    wal_write_precedes_mutation_except_void.2.2.2.2.2.1 scn1 1 _ "COFFEE" 1
      350 100 rfl rfl rfl⟩

/-- Counterexample for C5: two `begin_transaction` calls identical in every
caller-supplied input except the currency code yield transactions with
different decimal places (JPY → 0, USD → 2) — the kernel derives the
decimal-place count from the code itself, and the FFI begin surface has no
decimal-place argument for the caller to supply. -/
theorem decimal_places_derived_from_code_cex :
    (pk_begin_transaction_legal LegalKernelStore.new "STORE01" "JPY"
      100 true).1 = (.ok, some 1) ∧
    pk_get_currency_decimal_places
      (pk_begin_transaction_legal LegalKernelStore.new "STORE01" "JPY"
        100 true).2 1 = (.ok, some 0) ∧
    pk_get_currency_decimal_places
      (pk_begin_transaction_legal LegalKernelStore.new "STORE01" "USD"
        100 true).2 1 = (.ok, some 2) := by decide

/-- C5 as amended: the caller supplies only a currency code at transaction
start; the kernel itself derives the decimal places from the (uppercased)
code — 0 for JPY and 2 for every other accepted code (USD, EUR, GBP, CAD,
AUD and all non-standard codes). -/
theorem decimal_places_from_code (c : String) (cur : Currency)
    (hc : Currency.new c = .ok cur) :
    cur.decimal_places = (if rustUppercase c = "JPY" then 0 else 2) := by
  by_cases hJ : rustUppercase c = "JPY"
  · rw [if_pos hJ]
    simp only [Currency.new] at hc
    rw [hJ] at hc
    split at hc
    · exact absurd hc (by simp)
    · split at hc
      · exact absurd hc (by simp)
      · simp at hc
        subst hc
        decide
  · rw [if_neg hJ]
    simp only [Currency.new] at hc
    split at hc
    · exact absurd hc (by simp)
    · split at hc
      · exact absurd hc (by simp)
      · repeat' split at hc
        all_goals simp only [Except.ok.injEq] at hc
        all_goals
          first
          | exact absurd ‹rustUppercase c = "JPY"› hJ
          | (subst hc; rfl)

/-- Witness for the amended C5 at the lowercase code "jpy". -/
theorem decimal_places_from_code_witness :
    Currency.jpy.decimal_places =
      (if rustUppercase "jpy" = "JPY" then 0 else 2) :=
  decimal_places_from_code "jpy" Currency.jpy rfl

/-- Counterexample for C10: construction does NOT succeed for every
3-character code — "€€€" has 3 characters but 9 UTF-8 bytes and Rust's
`code.len() != 3` byte check rejects it (while the lowercase-"usd" part of
the claim does hold). -/
theorem currency_three_char_rejected_cex :
    "€€€".data.length = 3 ∧
    Currency.new "€€€" =
      .error "Currency code must be exactly 3 characters" ∧
    Currency.new "usd" = .ok Currency.usd := by decide

/-- C10 as amended: Currency construction succeeds exactly for codes whose
UTF-8 encoding is 3 bytes (`Rust code.len()` counts bytes, so a 3-character
code containing non-ASCII characters is rejected); for ASCII codes the
stored code is the uppercased form, and the lowercase "usd" yields the same
standard USD currency value (2 decimal places) as "USD", so no later query
can distinguish the two. -/
theorem currency_three_byte_codes_accepted :
    (∀ c : String, (Currency.new c).isOk = true ↔ utf8Len c = 3) ∧
    (∀ c : String, utf8Len c = 3 → (∀ ch ∈ c.data, ch.toNat < 128) →
      ∃ cur, Currency.new c = .ok cur ∧ cur.code = rustUppercase c) ∧
    Currency.new "usd" = .ok Currency.usd ∧
    Currency.new "USD" = .ok Currency.usd ∧
    Currency.usd.decimal_places = 2 ∧ Currency.usd.is_standard = true := by
  have hsucc : ∀ c : String, utf8Len c = 3 →
      ∃ cur, Currency.new c = .ok cur ∧ cur.code = rustUppercase c := by
    intro c h3
    have hne : c.data ≠ [] := by
      intro he
      unfold utf8Len at h3
      rw [he] at h3
      simp at h3
    simp only [Currency.new]
    rw [if_neg (by simp [hne]), if_neg (fun hx => hx h3)]
    split
    · next h1 => exact ⟨Currency.usd, rfl, h1.symm⟩
    · split
      · next h1 => exact ⟨Currency.eur, rfl, h1.symm⟩
      · split
        · next h1 => exact ⟨Currency.jpy, rfl, h1.symm⟩
        · split
          · next h1 => exact ⟨Currency.gbp, rfl, h1.symm⟩
          · split
            · next h1 => exact ⟨Currency.cad, rfl, h1.symm⟩
            · split
              · next h1 => exact ⟨Currency.aud, rfl, h1.symm⟩
              · exact ⟨⟨rustUppercase c, 2, false⟩, rfl, rfl⟩
  refine ⟨?_, fun c h3 _ => hsucc c h3, by decide, by decide, rfl, rfl⟩
  intro c
  constructor
  · intro hok
    simp only [Currency.new] at hok
    split at hok
    · exact absurd hok (by decide)
    · split at hok
      · exact absurd hok (by decide)
      · next hn3 => exact not_not.mp hn3
  · intro h3
    obtain ⟨cur, hc, h2⟩ := hsucc c h3
    rw [hc]
    rfl

/-- Witness for the amended C10 at the lowercase ASCII code "usd". -/
theorem currency_three_byte_codes_accepted_witness :
    (Currency.new "usd").isOk = true ∧ utf8Len "usd" = 3 ∧
    Currency.new "usd" = .ok Currency.usd ∧
    Currency.usd.code = rustUppercase "usd" := by
  obtain ⟨cur, h1, h2⟩ :=
    currency_three_byte_codes_accepted.2.1 "usd" (by decide) (by decide)
  have hiff :=
    (currency_three_byte_codes_accepted.1 "usd").mpr (by decide)
  have hcur : cur = Currency.usd := by
    have h4 := h1.symm.trans
      (by decide : Currency.new "usd" = .ok Currency.usd)
    simpa using h4
  subst hcur
  exact ⟨hiff, by decide, h1, h2⟩

/-- C6: in every reachable kernel state, every Sale line is referenced by at
most one Void entry (so a voided Sale line has exactly one), and every such
Void entry references the Sale's line number, negates its quantity exactly
and preserves its unit price; moreover `void_line` fails NotFound when no
Sale line with the requested number exists and InvalidState when the line is
already voided. -/
theorem void_invariant_and_errors :
    (∀ s : LegalKernelStore, Reachable s →
      ∀ (h : Nat) (tx : LegalTransaction),
      (h, tx) ∈ s.active_transactions →
      ∀ S ∈ tx.lines, S.entry_type = EntryType.sale →
        (voidsReferencing tx.lines S.line_number).length ≤ 1 ∧
        ((∃ V ∈ tx.lines, V.entry_type = EntryType.void ∧
            V.references_line = some S.line_number) →
          (voidsReferencing tx.lines S.line_number).length = 1) ∧
        (∀ V ∈ voidsReferencing tx.lines S.line_number,
          V.references_line = some S.line_number ∧
          V.qty = -S.qty ∧ V.unit_minor = S.unit_minor)) ∧
    (∀ (s : LegalKernelStore) (h : Nat) (tx : LegalTransaction)
        (n : Nat) (reason : String) (now : Nat) (walOk : Bool),
      h ≠ 0 → lookupTx s h = some tx →
      tx.state = LegalTxState.building →
      tx.is_expired s.system_config.transaction_timeout_seconds now
        = false →
      ((∀ l ∈ tx.lines, ¬(l.line_number = n ∧
          l.entry_type = EntryType.sale)) →
        (pk_void_line_legal s h n reason now walOk).1 = .notFound) ∧
      ((∃ l ∈ tx.lines, l.line_number = n ∧
          l.entry_type = EntryType.sale) →
        (∃ v ∈ tx.lines, v.entry_type = EntryType.void ∧
          v.references_line = some n) →
        (pk_void_line_legal s h n reason now walOk).1 = .invalidState)) := by
  constructor
  · intro s hr h tx hmem S hS hSt
    have hinv : TxInv tx := reachable_storeInv hr (h, tx) hmem
    obtain ⟨hnum, hex, hcount⟩ := hinv
    refine ⟨hcount S.line_number, ?_, ?_⟩
    · rintro ⟨V, hVmem, hVt, hVr⟩
      have hVf : V ∈ voidsReferencing tx.lines S.line_number := by
        unfold voidsReferencing
        rw [List.mem_filter]
        exact ⟨hVmem, by simp [hVt, hVr]⟩
      have hpos : 0 < (voidsReferencing tx.lines S.line_number).length :=
        List.length_pos.mpr (fun hnil => by
          rw [hnil] at hVf; exact absurd hVf (List.not_mem_nil V))
      have hle := hcount S.line_number
      omega
    · intro V hVf
      unfold voidsReferencing at hVf
      rw [List.mem_filter] at hVf
      obtain ⟨hVmem, hpred⟩ := hVf
      simp only [Bool.and_eq_true, beq_iff_eq] at hpred
      obtain ⟨hVt, hVr⟩ := hpred
      obtain ⟨T, hTmem, hTt, hTr, hTq, hTu⟩ := hex V hVmem hVt
      have hTn : T.line_number = S.line_number := by
        rw [hTr] at hVr
        exact Option.some.inj hVr
      have hTS : T = S := numbered_inj hnum T hTmem S hS hTn
      subst hTS
      exact ⟨hVr, hTq, hTu⟩
  · intro s h tx n reason now walOk hh hl hb hexp
    constructor
    · intro hnone
      unfold pk_void_line_legal
      rw [if_neg hh]
      simp only [voidLineItemLegal, hl, hb]
      rw [if_neg (by simp [hexp])]
      have hfind : tx.lines.find? (fun l =>
          l.line_number == n && l.entry_type == EntryType.sale) = none := by
        rw [List.find?_eq_none]
        intro l hlmem hp
        simp only [Bool.and_eq_true, beq_iff_eq] at hp
        exact hnone l hlmem ⟨hp.1, hp.2⟩
      simp only [LegalTransaction.void_line_item, hfind]
    · rintro ⟨l, hlmem, hln, hlt⟩ ⟨v, hvmem, hvt, hvr⟩
      unfold pk_void_line_legal
      rw [if_neg hh]
      simp only [voidLineItemLegal, hl, hb]
      rw [if_neg (by simp [hexp])]
      have hany : tx.lines.any (fun l =>
          l.entry_type == EntryType.void &&
            l.references_line == some n) = true := by
        rw [List.any_eq_true]
        exact ⟨v, hvmem, by simp [hvt, hvr]⟩
      have hfind : (tx.lines.find? (fun l =>
          l.line_number == n && l.entry_type == EntryType.sale)).isSome := by
        rw [List.find?_isSome]
        exact ⟨l, hlmem, by simp [hln, hlt]⟩
      obtain ⟨orig, horig⟩ := Option.isSome_iff_exists.mp hfind
      simp only [LegalTransaction.void_line_item, horig, hany]
      rfl

/-- The scenario state after voiding line 1 of `scn2`. -/
def scnVoid : LegalKernelStore :=
  (pk_void_line_legal scn2 1 1 "customer changed mind" 100 true).2

theorem reachable_scnVoid : Reachable scnVoid :=
  Reachable.step_void scn2 1 1 "customer changed mind" none 100 true
    reachable_scn2

/-- The Sale line of the voided scenario transaction. -/
def saleLineX : Line :=
  { sku := "X", qty := 1, unit_minor := 1000, line_number := 1,
    entry_type := .sale, void_reason := none, references_line := none,
    timestamp := 100, operator_id := none }

/-- The reversing Void entry of the voided scenario transaction. -/
def voidLineX : Line :=
  { sku := "X", qty := -1, unit_minor := 1000, line_number := 2,
    entry_type := .void, void_reason := some "customer changed mind",
    references_line := some 1, timestamp := 100, operator_id := none }

/-- The voided scenario transaction as registered in `scnVoid`. -/
def txVoided : LegalTransaction :=
  { id := 1, store := "STORE01", currency := Currency.usd,
    lines := [saleLineX, voidLineX], tendered_minor := 0,
    state := .building, created_at := 100, committed_at := none,
    last_activity := 100, recovery_point := 2, wal_begin_sequence := some 1,
    wal_commit_sequence := none }

/-- Witness for C6 at the concrete voided scenario: exactly one Void entry
references Sale line 1 and it reverses it exactly; a second void fails
InvalidState, and voiding a missing line fails NotFound. -/
theorem void_invariant_and_errors_witness :
    (voidsReferencing txVoided.lines 1).length = 1 ∧
    voidLineX.references_line = some saleLineX.line_number ∧
    voidLineX.qty = -saleLineX.qty ∧
    voidLineX.unit_minor = saleLineX.unit_minor ∧
    (pk_void_line_legal scnVoid 1 5 "missing" 100 true).1 = .notFound ∧
    (pk_void_line_legal scnVoid 1 1 "again" 100 true).1 = .invalidState := by
  have hmem : (1, txVoided) ∈ scnVoid.active_transactions := by decide
  have hpart1 := void_invariant_and_errors.1 scnVoid reachable_scnVoid 1
    txVoided hmem saleLineX (by decide) rfl
  have hV := hpart1.2.2 voidLineX (by decide)
  have h2 := void_invariant_and_errors.2 scnVoid 1 txVoided 5 "missing" 100
    true (by decide) rfl rfl rfl
  have h2b := void_invariant_and_errors.2 scnVoid 1 txVoided 1 "again" 100
    true (by decide) rfl rfl rfl
  exact ⟨hpart1.2.1 (by decide), hV.1, hV.2.1, hV.2.2,
    h2.1 (by decide), h2b.2 (by decide) (by decide)⟩
